import Mathlib

/-!
Verification development for the nasdaq-ticker-list pipeline
(clean_tickers.py, enrich_sectors.py, shorten_name.py, run_all.py).

Python strings are modelled as `List Char` (`Str`).  Pure string helpers
mirror the Python string methods used by the scripts; the `re` usages are
embedded through a small backtracking matcher-combinator engine whose
combinators correspond one-to-one to the regex constructs appearing in the
source (literals, character classes, `?`, `+`/`*` over one-character
classes, alternation in written order, `\b`, `$`).  All definitions are
executable and use structural or fuel-based recursion so that concrete
inputs evaluate by `decide`/`rfl`.
-/

/-- Python strings as lists of characters. -/
abbrev Str := List Char

/-- Convert a Lean string literal to the `Str` model. -/
def strL (s : String) : Str := s.toList

/-- The ASCII single-quote character (used by Python list `repr`). -/
def sqChar : Char := Char.ofNat 39

/-- Whitespace as recognised by Python `str.strip()` / `\s` for the
character repertoire appearing in this pipeline (ASCII whitespace plus
NBSP). -/
def pyIsSpace (c : Char) : Bool :=
  c == ' ' || c == Char.ofNat 9 || c == Char.ofNat 10 || c == Char.ofNat 13 ||
  c == Char.ofNat 11 || c == Char.ofNat 12 || c == Char.ofNat 0xa0

/-- Python `\w` (word character) for the ASCII inputs of this pipeline. -/
def isWordChar (c : Char) : Bool := c.isAlphanum || c == '_'

/-- ASCII lower-casing, as `str.lower()` acts on the data here. -/
def lowerChar (c : Char) : Char :=
  if 'A'.toNat ≤ c.toNat && c.toNat ≤ 'Z'.toNat then Char.ofNat (c.toNat + 32) else c

/-- ASCII upper-casing, as `str.upper()` acts on the data here. -/
def upperChar (c : Char) : Char :=
  if 'a'.toNat ≤ c.toNat && c.toNat ≤ 'z'.toNat then Char.ofNat (c.toNat - 32) else c

/-- `str.lower()`. -/
def lowerS (s : Str) : Str := s.map lowerChar

/-- `str.upper()`. -/
def upperS (s : Str) : Str := s.map upperChar

/-- `str.lstrip(chars)` for a character predicate. -/
def lstripP (p : Char → Bool) (s : Str) : Str := s.dropWhile p

/-- `str.rstrip(chars)` for a character predicate. -/
def rstripP (p : Char → Bool) (s : Str) : Str := (s.reverse.dropWhile p).reverse

/-- `str.strip(chars)` for a character predicate. -/
def stripBothP (p : Char → Bool) (s : Str) : Str := lstripP p (rstripP p s)

/-- `str.strip()` (whitespace). -/
def stripWs (s : Str) : Str := stripBothP pyIsSpace s

/-- The character set of `strip(" ,.;:")` / `rstrip(" ,.;:")` used by
shorten_name.py. -/
def punctStripSet : Str := strL " ,.;:"

/-- `rstrip(" ,.;:")`. -/
def rstripPunct (s : Str) : Str := rstripP (fun c => punctStripSet.contains c) s

/-- `strip(" ,.;:")`. -/
def stripPunct (s : Str) : Str := stripBothP (fun c => punctStripSet.contains c) s

/-- List-prefix test (`str.startswith` reads `isPreL pre s`). -/
def isPreL : Str → Str → Bool
  | [], _ => true
  | _ :: _, [] => false
  | c :: cs, d :: ds => c == d && isPreL cs ds

/-- Substring test: `needle in hay` / `str.contains` for a literal
pattern (and hence for an alternation of literals applied per literal). -/
def containsSub (n : Str) : Str → Bool
  | [] => n.isEmpty
  | c :: cs => isPreL n (c :: cs) || containsSub n cs

/-- `str.split(sep)` for a single-character separator, keeping empty
pieces, exactly as Python does (`"".split(" ") = [""]`). -/
def pySplitChar (sep : Char) : Str → List Str
  | [] => [[]]
  | c :: cs =>
    if c == sep then [] :: pySplitChar sep cs
    else
      match pySplitChar sep cs with
      | t :: ts => (c :: t) :: ts
      | [] => [[c]]

/-- `str.split()` (split on whitespace runs, dropping empties). -/
def pySplitWs : Str → List Str
  | [] => []
  | c :: cs =>
    if pyIsSpace c then pySplitWs cs
    else
      match cs with
      | [] => [[c]]
      | d :: _ =>
        if pyIsSpace d then [c] :: pySplitWs cs
        else
          match pySplitWs cs with
          | t :: ts => (c :: t) :: ts
          | [] => [[c]]

/-- `" ".join(parts)`. -/
def joinSp : List Str → Str
  | [] => []
  | [t] => t
  | t :: ts => t ++ ' ' :: joinSp ts

/-- `re.sub(r"\s+", " ", s).strip()`: collapsing every whitespace run to a
single space and then stripping the ends is exactly re-joining the
whitespace-split tokens with single spaces. -/
def collapseStripWs (s : Str) : Str := joinSp (pySplitWs s)

/-- `str.replace(needle, repl)` (all non-overlapping occurrences, left to
right); fuel bounds the recursion and `length + 1` always suffices. -/
def replaceAllAux (needle repl : Str) : Nat → Str → Str
  | 0, s => s
  | _ + 1, [] => []
  | fuel + 1, c :: cs =>
    if isPreL needle (c :: cs) then
      repl ++ replaceAllAux needle repl fuel ((c :: cs).drop needle.length)
    else c :: replaceAllAux needle repl fuel cs

/-- `str.replace(needle, repl)`. -/
def replaceAllS (needle repl : Str) (s : Str) : Str :=
  replaceAllAux needle repl (s.length + 1) s

/-- First-occurrence-preserving deduplication (pandas `unique`). -/
def dedupFirstAux {α : Type} [BEq α] (seen : List α) : List α → List α
  | [] => []
  | x :: xs => if seen.contains x then dedupFirstAux seen xs
               else x :: dedupFirstAux (x :: seen) xs

/-- First-occurrence-preserving deduplication (pandas `unique`). -/
def dedupFirst {α : Type} [BEq α] (l : List α) : List α := dedupFirstAux [] l

/-- `drop_duplicates(subset=key, keep="first")`: keep the first row for
each key value, in order. -/
def keepFirstByAux {α κ : Type} [BEq κ] (key : α → κ) (seen : List κ) : List α → List α
  | [] => []
  | x :: xs =>
    if seen.contains (key x) then keepFirstByAux key seen xs
    else x :: keepFirstByAux key (key x :: seen) xs

/-- `drop_duplicates(subset=key, keep="first")`. -/
def keepFirstBy {α κ : Type} [BEq κ] (key : α → κ) (l : List α) : List α :=
  keepFirstByAux key [] l

/-- Python string `<` (lexicographic by code point). -/
def ltStr : Str → Str → Bool
  | [], [] => false
  | [], _ :: _ => true
  | _ :: _, [] => false
  | c :: cs, d :: ds =>
    if c.toNat < d.toNat then true
    else if d.toNat < c.toNat then false
    else ltStr cs ds

/-- Insertion into a sorted list of Python strings. -/
def insortStr (x : Str) : List Str → List Str
  | [] => [x]
  | y :: ys => if ltStr x y then x :: y :: ys else y :: insortStr x ys

/-- Python `sorted` on a list of strings. -/
def pySortedStr (l : List Str) : List Str := l.foldr insortStr []

/-- A Python-repr single-quoted string, as it appears inside the repr of a
list of strings. -/
def quotedPy (s : Str) : Str := sqChar :: (s ++ [sqChar])

/-- Comma-separated part of the Python repr of a list of strings. -/
def reprItems : List Str → Str
  | [] => []
  | [x] => quotedPy x
  | x :: xs => quotedPy x ++ strL ", " ++ reprItems xs

/-- Python `repr` of a list of strings, e.g. `['Last Sale', 'Volume']`,
as produced by an f-string interpolation of a list. -/
def pyReprStrList (l : List Str) : Str := '[' :: (reprItems l ++ [']'])

/-!
Matcher-combinator engine for the `re` patterns used by the scripts.
A matcher state records the previous character (for `\b`) and the
remaining input; a matcher returns the list of possible successor states
in backtracking preference order (greedy quantifiers and alternation in
written order first), which is exactly the order in which Python's `re`
explores alternatives.
-/

/-- Matcher state: previous character (None at string start) and the
remaining input. -/
structure MS where
  prev : Option Char
  rest : Str
deriving DecidableEq

/-- A matcher maps a state to its possible successor states, in
backtracking preference order. -/
abbrev Matcher := MS → List MS

/-- Literal string; `ci` selects `re.IGNORECASE` comparison. -/
def mLit (ci : Bool) : Str → Matcher
  | [], st => [st]
  | c :: cs, st =>
    match st.rest with
    | [] => []
    | d :: ds =>
      if (if ci then lowerChar d == lowerChar c else d == c) then
        mLit ci cs ⟨some d, ds⟩
      else []

/-- One character from a character class. -/
def mCls (p : Char → Bool) : Matcher := fun st =>
  match st.rest with
  | [] => []
  | d :: ds => if p d then [⟨some d, ds⟩] else []

/-- Sequencing of matchers. -/
def mSeq (a b : Matcher) : Matcher := fun st => (a st).flatMap b

/-- Alternation, tried in written order. -/
def mAlt (ms : List Matcher) : Matcher := fun st => ms.flatMap (fun m => m st)

/-- Greedy `?`. -/
def mOpt (m : Matcher) : Matcher := fun st => m st ++ [st]

/-- Helper for the greedy star over a one-character class: successor
states from longest match to shortest. -/
def starClsAux (p : Char → Bool) : Option Char → Str → List MS
  | prev, [] => [⟨prev, []⟩]
  | prev, c :: cs =>
    if p c then starClsAux p (some c) cs ++ [⟨prev, c :: cs⟩]
    else [⟨prev, c :: cs⟩]

/-- Greedy `*` over a one-character class (all stars in the embedded
patterns range over one-character classes such as `\s`, `.`, `[0-9.]`). -/
def mStarCls (p : Char → Bool) : Matcher := fun st => starClsAux p st.prev st.rest

/-- Greedy `+` over a one-character class. -/
def mPlusCls (p : Char → Bool) : Matcher := mSeq (mCls p) (mStarCls p)

/-- Word boundary `\b`. -/
def mWb : Matcher := fun st =>
  let pw := match st.prev with | none => false | some c => isWordChar c
  let nw := match st.rest with | [] => false | c :: _ => isWordChar c
  if pw != nw then [st] else []

/-- End of input `$` (no trailing newlines occur in the pipeline data). -/
def mEos : Matcher := fun st =>
  match st.rest with
  | [] => [st]
  | _ :: _ => []

/-- Greedy `{1,3}` repetition (tries three copies first, then two, then
one), as used by the dotted-abbreviation pattern. -/
def mRep123 (m : Matcher) : Matcher := mAlt [mSeq m (mSeq m m), mSeq m m, m]

/-- `re.search`: scan start positions left to right; at the first position
where the matcher succeeds, return (start, end) using the first successor
state in preference order — exactly Python's leftmost match with its
backtracking-preferred end. -/
def reSearchAux (m : Matcher) (prev : Option Char) (rest : Str) (pos : Nat) :
    Option (Nat × Nat) :=
  match m ⟨prev, rest⟩ with
  | r :: _ => some (pos, pos + (rest.length - r.rest.length))
  | [] =>
    match rest with
    | [] => none
    | c :: cs => reSearchAux m (some c) cs (pos + 1)

/-- `re.search` over a whole string. -/
def reSearch (m : Matcher) (s : Str) : Option (Nat × Nat) := reSearchAux m none s 0

/-- `re.sub(pattern, "", s)` for a pattern anchored at the end of the
string (every such pattern in the source ends in `\s*$`): the single
leftmost match runs to the end, so substitution is truncation at the
match start. -/
def reSubEnd (m : Matcher) (s : Str) : Str :=
  match reSearch m s with
  | some (st, _) => s.take st
  | none => s

/-- `re.sub(pattern, "", s)` for an unanchored pattern (used for
`class\s+[a-z]`): delete each leftmost non-overlapping match and continue
scanning after it.  Fuel `length + 1` always suffices because every step
consumes at least one character. -/
def reSubAllAux (m : Matcher) : Nat → Option Char → Str → Str
  | 0, _, rest => rest
  | fuel + 1, prev, rest =>
    match m ⟨prev, rest⟩ with
    | r :: _ =>
      if r.rest.length < rest.length then reSubAllAux m fuel r.prev r.rest
      else
        match rest with
        | [] => []
        | c :: cs => c :: reSubAllAux m fuel (some c) cs
    | [] =>
      match rest with
      | [] => []
      | c :: cs => c :: reSubAllAux m fuel (some c) cs

/-- `re.sub(pattern, "", s)` for an unanchored pattern. -/
def reSubAll (m : Matcher) (s : Str) : Str := reSubAllAux m (s.length + 1) none s

/-- `re.fullmatch(pattern, s)` as a Boolean: some backtracking path
consumes the entire input. -/
def reFullmatch (m : Matcher) (s : Str) : Bool :=
  (m ⟨none, s⟩).any (fun r => r.rest.isEmpty)

/-!
Embedding of shorten_name.py.  Configuration constants are the values set
at the top of the script.  Function and constant names follow the source.
-/

/-- Sequencing of a list of matchers. -/
def mSeqs : List Matcher → Matcher
  | [] => fun st => [st]
  | m :: ms => mSeq m (mSeqs ms)

/-- Case-insensitive literal (patterns compiled with `re.IGNORECASE`). -/
def litCI (w : String) : Matcher := mLit true (strL w)

/-- A literal enclosed in word boundaries: `\b w \b`. -/
def wbLit (w : String) : Matcher := mSeqs [mWb, litCI w, mWb]

/-- `\s+`. -/
def wsPlusM : Matcher := mPlusCls pyIsSpace

/-- `\s*`. -/
def wsStarM : Matcher := mStarCls pyIsSpace

/-- `.*` (Python `.` does not match a newline). -/
def dotStarM : Matcher := mStarCls (fun c => c != Char.ofNat 10)

/-- `\d+`. -/
def digitPlusM : Matcher := mPlusCls Char.isDigit

/-- `[a-z]` under `re.IGNORECASE` (any ASCII letter). -/
def alphaClsM : Matcher := mCls Char.isAlpha

/-- `TRUNCATE_AFTER_LEGAL_SUFFIX` config flag. -/
def TRUNCATE_AFTER_LEGAL_SUFFIX : Bool := true

/-- `REMOVE_TRAILING_LEGAL_SUFFIX_TOKENS` config flag. -/
def REMOVE_TRAILING_LEGAL_SUFFIX_TOKENS : Bool := true

/-- `KEEP_SUFFIX_WORDS` config set. -/
def KEEP_SUFFIX_WORDS : List Str := [strL "company", strL "group", strL "holdings"]

/-- `DROP_SHORT_ALLCAPS_PARENS` config flag. -/
def DROP_SHORT_ALLCAPS_PARENS : Bool := true

/-- `DROP_SHORT_ALLCAPS_PARENS_MAXLEN` config value. -/
def DROP_SHORT_ALLCAPS_PARENS_MAXLEN : Nat := 4

/-- `KEEP_PAREN_TICKERS` config set. -/
def KEEP_PAREN_TICKERS : List Str := [strL "mindmed"]

/-- `MAX_NAME_LEN` config value. -/
def MAX_NAME_LEN : Nat := 50

/-- `ENFORCE_MAX_NAME_LEN` config flag. -/
def ENFORCE_MAX_NAME_LEN : Bool := true

/-- `_PAREN_NOISE_EXACT` from shorten_name.py. -/
def parenNoiseExact : List Str :=
  [strL "the", strL "de", strL "new", strL "holding company", strL "holdings",
   strL "ireland", strL "canada", strL "hc", strL "nv", strL "tx", strL "fl",
   strL "nj", strL "pa", strL "ca", strL "uk", strL "marshall islands",
   strL "s.c", strL "s.c.", strL "sc"]

/-- `_TRAILING_SUFFIX_TOKENS` from shorten_name.py. -/
def trailingSuffixTokens : List Str :=
  [strL "inc", strL "inc.", strL "corp", strL "corp.", strL "corporation",
   strL "co", strL "co.", strL "incorporated", strL "ltd", strL "ltd.",
   strL "limited", strL "llc", strL "l.l.c.", strL "plc", strL "lp",
   strL "l.p.", strL "llp", strL "l.l.p.", strL "ag", strL "nv",
   strL "n.v.", strL "sa", strL "s.a.", strL "se", strL "spa", strL "s.p.a."]

/-- The wrapper `(?:,?\s+) PAT \s*$` applied to every `_TRAILING_PATTERNS`
entry by `strip_trailing_security_descriptors`. -/
def wrapTrail (core : Matcher) : Matcher :=
  mSeqs [mOpt (litCI ","), wsPlusM, core, wsStarM, mEos]

/-- `_TRAILING_PATTERNS` from shorten_name.py, in source order, each
already wrapped as `(?:,?\s+) PAT \s*$` with `re.IGNORECASE`. -/
def trailingPatterns : List Matcher :=
  [wrapTrail (wbLit "common stock"),
   wrapTrail (wbLit "new common stock"),
   wrapTrail (wbLit "common shares"),
   wrapTrail (mSeqs [mWb, litCI "common share", mOpt (litCI "s"), wsPlusM,
                     litCI "of", mWb, dotStarM, mEos]),
   wrapTrail (wbLit "ordinary shares"),
   wrapTrail (wbLit "voting common stock"),
   wrapTrail (mSeqs [mWb, litCI "class", wsPlusM, alphaClsM, mWb]),
   wrapTrail (mSeqs [mWb, litCI "class", wsPlusM, alphaClsM, wsPlusM,
                     litCI "common stock", mWb]),
   wrapTrail (mSeqs [mWb, litCI "class", wsPlusM, alphaClsM, wsPlusM,
                     litCI "ordinary shares", mWb]),
   wrapTrail (mSeqs [mWb, litCI "series", wsPlusM, alphaClsM, mWb]),
   wrapTrail (mSeqs [mWb, litCI "series", wsPlusM, alphaClsM, wsPlusM,
                     litCI "common stock", mWb]),
   wrapTrail (wbLit "nonvoting"),
   wrapTrail (wbLit "non voting"),
   wrapTrail (wbLit "depositary shares"),
   wrapTrail (wbLit "adr"),
   wrapTrail (wbLit "ads"),
   wrapTrail (wbLit "reit"),
   wrapTrail (wbLit "beneficial interest"),
   wrapTrail (wbLit "beneficial ownership"),
   wrapTrail (mSeqs [mWb, litCI "share", mOpt (litCI "s"), wsPlusM,
                     litCI "of", wsPlusM, litCI "beneficial", wsPlusM,
                     litCI "ownership", mWb]),
   wrapTrail (mSeqs [mWb, litCI "par value", mWb, dotStarM, mEos]),
   wrapTrail (mSeqs [mWb, litCI "$", mPlusCls (fun c => c.isDigit || c == '.'),
                     wsPlusM, litCI "par value", mWb, dotStarM, mEos]),
   wrapTrail (mSeqs [mWb, litCI "when issued", mWb, dotStarM, mEos]),
   wrapTrail (mSeqs [mWb, litCI "unit", mWb, dotStarM, mEos]),
   wrapTrail (mSeqs [mWb, litCI "warrant", mOpt (litCI "s"), mWb, dotStarM, mEos]),
   wrapTrail (mSeqs [mWb, litCI "ordinary shares", wsStarM, litCI "(",
                     dotStarM, litCI ")", mWb]),
   wrapTrail (mSeqs [litCI "$", wsStarM, digitPlusM,
                     mOpt (mSeq (litCI ".") digitPlusM), wsStarM, mEos]),
   wrapTrail (mSeqs [litCI "$", digitPlusM,
                     mOpt (mSeq (litCI ".") digitPlusM), wsStarM, mEos])]

/-- A legal-suffix alternative of the form `word\.?`. -/
def litOptDot (w : String) : Matcher := mSeq (litCI w) (mOpt (litCI "."))

/-- `_LEGAL_SUFFIX_REGEX` from shorten_name.py: `\b( alternatives )\b`
with the alternatives in source order, `re.IGNORECASE`. -/
def legalSuffixM : Matcher :=
  mSeqs [mWb,
         mAlt [litCI "incorporated", litOptDot "inc", litOptDot "corp",
               litCI "corporation", litCI "company", litOptDot "co",
               litOptDot "ltd", litCI "limited", litCI "plc", litCI "llc",
               litCI "l.l.c.", litCI "lp", litCI "l.p.", litCI "llp",
               litCI "l.l.p.", litCI "ag", litCI "nv", litCI "n.v.",
               litCI "sa", litCI "s.a.", litCI "se", litCI "spa",
               litCI "s.p.a.", litCI "bancorp"],
         mWb]

/-- Character replacements done by `_normalize_whitespace` before the
whitespace collapse (NBSP and curly quotes). -/
def charMapNorm (c : Char) : Char :=
  if c == Char.ofNat 0xa0 then ' '
  else if c == Char.ofNat 0x201c then '"'
  else if c == Char.ofNat 0x201d then '"'
  else if c == Char.ofNat 0x2019 then sqChar
  else c

/-- `_normalize_whitespace` from shorten_name.py. -/
def normalize_whitespace (s : Str) : Str := collapseStripWs (s.map charMapNorm)

/-- The duplicated-company-name collapse at the start of
`strip_trailing_security_descriptors` (lines 202-208 of the source). -/
def dupCollapse (s : Str) : Str :=
  let parts := pySplitChar ' ' s
  if 6 < parts.length then
    let half := parts.length / 2
    let left := stripWs (joinSp (parts.take half))
    let right := stripWs (joinSp (parts.drop half))
    if !left.isEmpty && isPreL (lowerS left) (lowerS right) then right else s
  else s

/-- `paren_repl` from shorten_name.py (`re.fullmatch(r"[A-Z]{2,4}", t)` is
a length-2..4 all-uppercase test, and `re.fullmatch(r"[a-z]{2}", t)` a
length-2 all-lowercase test). -/
def parenRepl (g : Str) : Str :=
  let inner := stripWs g
  let innerNorm := stripBothP (fun c => c == '.' || c == ',') (collapseStripWs inner)
  let innerL := lowerS innerNorm
  if parenNoiseExact.contains innerL then []
  else if DROP_SHORT_ALLCAPS_PARENS &&
      (2 ≤ innerNorm.length && innerNorm.length ≤ DROP_SHORT_ALLCAPS_PARENS_MAXLEN &&
       innerNorm.all (fun c => 'A' ≤ c && c ≤ 'Z')) &&
      !(KEEP_PAREN_TICKERS.contains innerL) then []
  else if innerL.length == 2 && innerL.all (fun c => 'a' ≤ c && c ≤ 'z') then []
  else '(' :: (inner ++ [')'])

/-- Split a string at its first `)` if any, as `[^)]*\)` consumes up to
the first closing parenthesis. -/
def takeUntilClose : Str → Option (Str × Str)
  | [] => none
  | c :: cs =>
    if c == ')' then some ([], cs)
    else (takeUntilClose cs).map (fun p => (c :: p.1, p.2))

/-- `re.sub(r"\(([^)]*)\)", paren_repl, s)`: left-to-right scan; a `(`
with a later `)` is a match whose group runs to the first `)`. -/
def parenSubAux : Nat → Str → Str
  | 0, s => s
  | _ + 1, [] => []
  | fuel + 1, c :: cs =>
    if c == '(' then
      match takeUntilClose cs with
      | some (g, rest) => parenRepl g ++ parenSubAux fuel rest
      | none => c :: parenSubAux fuel cs
    else c :: parenSubAux fuel cs

/-- `re.sub(r"\(([^)]*)\)", paren_repl, s)`. -/
def parenSub (s : Str) : Str := parenSubAux (s.length + 1) s

/-- `\s*\(\s*\)\s*$` (empty-parenthesis cleanup at end of string). -/
def emptyParenEndM : Matcher :=
  mSeqs [wsStarM, litCI "(", wsStarM, litCI ")", wsStarM, mEos]

/-- One iteration of the fixed-point loop inside
`strip_trailing_security_descriptors` (rstrip, the 28 anchored trailing
substitutions in order, empty-paren cleanup, whitespace normalization). -/
def descLoopBody (s : Str) : Str :=
  let s1 := rstripPunct s
  let s2 := trailingPatterns.foldl (fun t m => reSubEnd m t) s1
  let s3 := stripWs (reSubEnd emptyParenEndM s2)
  normalize_whitespace s3

/-- The `while changed` loop of `strip_trailing_security_descriptors`;
fuel `length + 2` reaches the fixed point because each changing iteration
only deletes characters (after the initial normalization pass no
character-replacement can fire again). -/
def descLoop : Nat → Str → Str
  | 0, s => s
  | fuel + 1, s =>
    let s2 := descLoopBody s
    if s2 == s then s2 else descLoop fuel s2

/-- `strip_trailing_security_descriptors` from shorten_name.py. -/
def strip_trailing_security_descriptors (name : Str) : Str :=
  let s0 := normalize_whitespace (stripWs name)
  let s1 := dupCollapse s0
  let s2 := normalize_whitespace (parenSub s1)
  let s3 := descLoop (s2.length + 2) s2
  normalize_whitespace (stripPunct s3)

/-- `truncate_after_legal_suffix` from shorten_name.py. -/
def truncate_after_legal_suffix (name : Str) : Str :=
  let s := normalize_whitespace (stripWs name)
  match reSearch legalSuffixM s with
  | none => s
  | some (_, e) => normalize_whitespace (rstripPunct (s.take e))

/-- The `while changed and s` loop of
`remove_trailing_legal_suffix_tokens`. -/
def remTokLoop : Nat → Str → Str
  | 0, s => s
  | fuel + 1, s =>
    if s.isEmpty then s
    else
      let s1 := rstripPunct s
      let tokens := pySplitChar ' ' s1
      if tokens.isEmpty then s1
      else
        let last := lowerS (stripPunct ((tokens.getLast?).getD []))
        if KEEP_SUFFIX_WORDS.contains last then s1
        else if trailingSuffixTokens.contains last then
          let s2 := normalize_whitespace (stripWs (joinSp tokens.dropLast))
          if s2 == s then s2 else remTokLoop fuel s2
        else
          if s1 == s then s1 else remTokLoop fuel s1

/-- `remove_trailing_legal_suffix_tokens` from shorten_name.py. -/
def remove_trailing_legal_suffix_tokens (name : Str) : Str :=
  let s := normalize_whitespace (stripWs name)
  if s.isEmpty then s else remTokLoop (s.length + 2) s

/-- `enforce_max_len` from shorten_name.py. -/
def enforce_max_len (name : Str) (maxLen : Nat) : Str :=
  let s := normalize_whitespace (stripWs name)
  if s.length ≤ maxLen then s
  else normalize_whitespace (rstripPunct (s.take maxLen))

/-- `_strip_trailing_symbol` from `make_short_name`: drop a final token
that is a single non-alphanumeric character. -/
def strip_trailing_symbol (name : Str) : Str :=
  let t := normalize_whitespace (stripWs name)
  if t.isEmpty then t
  else
    let parts := pySplitWs t
    match parts.getLast? with
    | none => t
    | some last =>
      match last with
      | [c] =>
        if !c.isAlphanum then normalize_whitespace (stripWs (joinSp parts.dropLast))
        else t
      | _ => t

/-- `(?:[A-Za-z]\.)`. -/
def dottedGroupM : Matcher := mSeq (mCls Char.isAlpha) (litCI ".")

/-- The dotted-abbreviation pattern of `_strip_trailing_dotted`:
`^(?:[A-Za-z]\.){1,3}[A-Za-z]\.?$|^(?:[A-Za-z]\.){1,3}$` (used with
`re.fullmatch`). -/
def dottedM : Matcher :=
  mAlt [mSeqs [mRep123 dottedGroupM, mCls Char.isAlpha, mOpt (litCI ".")],
        mRep123 dottedGroupM]

/-- `_strip_trailing_dotted` from `make_short_name`. -/
def strip_trailing_dotted (name : Str) : Str :=
  let t := normalize_whitespace (stripWs name)
  if t.isEmpty then t
  else
    let parts := pySplitWs t
    match parts.getLast? with
    | none => t
    | some last =>
      if reFullmatch dottedM last then
        normalize_whitespace (stripWs (joinSp parts.dropLast))
      else t

/-- `make_short_name` from shorten_name.py, with the configuration set at
the top of the script: each optional stage is applied exactly when its
flag (and, for the length cap, `MAX_NAME_LEN and MAX_NAME_LEN > 0`) holds. -/
def make_short_name (original : Str) : Str :=
  strip_trailing_dotted
    (strip_trailing_symbol
      ((if ENFORCE_MAX_NAME_LEN && decide (0 < MAX_NAME_LEN) then
          (fun t => enforce_max_len t MAX_NAME_LEN) else id)
        ((if REMOVE_TRAILING_LEGAL_SUFFIX_TOKENS then
            remove_trailing_legal_suffix_tokens else id)
          ((if TRUNCATE_AFTER_LEGAL_SUFFIX then
              truncate_after_legal_suffix else id)
            (strip_trailing_security_descriptors original)))))

/-!
Embedding of clean_tickers.py.  The frame loaded by `pd.read_csv(...,
dtype=str)` is modelled as a list of column names plus rows of optional
string cells (None is NaN).  Phases 1-3 and the required-column check are
embedded in the order the script executes them; the liquidity phase
(floating-point arithmetic on parsed `Last Sale`/`Volume`) and the CSV
output lie outside every claim and past the embedded check, so the run is
modelled up to and including the check.  `sort_values("class_rank")` uses
pandas' default `kind='quicksort'`, whose order among equal ranks is not
specified; it is therefore modelled as a caller-supplied `sortAlg`, and
claims about the sort are stated against the documented contract (some
permutation with nondecreasing ranks).
-/

/-- `exclude_keywords` from clean_tickers.py (Phase 1). -/
def exclude_keywords : List Str :=
  [strL "depositary", strL "adr", strL "preferred", strL "unit",
   strL "warrant", strL "right", strL "notes", strL "trust",
   strL "etf", strL "fund"]

/-- The inclusion phrases of Phase 2 (`"common stock|common shares|ordinary shares"`). -/
def include_phrases : List Str :=
  [strL "common stock", strL "common shares", strL "ordinary shares"]

/-- Phase 1 test: `name_norm` matches the exclusion alternation, i.e.
contains some exclusion keyword as a substring. -/
def hasExcludeKeyword (nameNorm : Str) : Bool :=
  exclude_keywords.any (fun k => containsSub k nameNorm)

/-- Phase 2 test: `name_norm` contains some inclusion phrase. -/
def hasIncludePhrase (nameNorm : Str) : Bool :=
  include_phrases.any (fun p => containsSub p nameNorm)

/-- `NameClassifier.classify`: a row survives Phases 1 and 2 iff its
lower-cased name (NaN read as `""`) contains no exclusion keyword and
contains an inclusion phrase. -/
def classify (name : Option Str) : Bool :=
  let nameNorm := lowerS (name.getD [])
  !hasExcludeKeyword nameNorm && hasIncludePhrase nameNorm

/-- The pattern `class\s+[a-z]` of `normalize_company` (no IGNORECASE;
the input is already lower-cased). -/
def classLetterM : Matcher :=
  mSeqs [mLit false (strL "class"), wsPlusM, mCls (fun c => 'a' ≤ c && c ≤ 'z')]

/-- `normalize_company` from clean_tickers.py. -/
def normalize_company (name : Str) : Str :=
  let s := reSubAll classLetterM name
  let s := replaceAllS (strL "common stock") [] s
  let s := replaceAllS (strL "common shares") [] s
  let s := replaceAllS (strL "ordinary shares") [] s
  collapseStripWs s

/-- `class_rank` from clean_tickers.py. -/
def class_rank (name : Str) : Nat :=
  if containsSub (strL "class a") name then 0
  else if containsSub (strL "class b") name then 1
  else 2

/-- A rank rendered as the string pandas would show for the int column
(only 0, 1, 2 occur). -/
def rankStr (r : Nat) : Str :=
  if r == 0 then strL "0" else if r == 1 then strL "1" else strL "2"

/-- A loaded CSV frame: column names and rows of optional string cells. -/
structure Table where
  cols : List Str
  rows : List (List (Option Str))

/-- Cell access by column index (missing cells read as NaN). -/
def getCellI (row : List (Option Str)) (i : Nat) : Option Str :=
  (row.get? i).getD none

/-- `required_cols` from clean_tickers.py Phase 4. -/
def requiredCleanCols : List Str := [strL "Last Sale", strL "Volume"]

/-- The `SystemExit` message of clean_tickers.py line 112:
`f"Missing required columns: {missing}. Available columns: {list(df.columns)}"`. -/
def mkCleanMsg (missing avail : List Str) : Str :=
  strL "Missing required columns: " ++ pyReprStrList missing ++
  strL ". Available columns: " ++ pyReprStrList avail

/-- clean_tickers.py module-level script from the `name_norm` assignment
through the required-column check, in source order: add `name_norm`,
Phase 1 exclusion filter, Phase 2 inclusion filter, Phase 3 share-class
deduplication (add `company_key` and `class_rank` columns, sort by rank
with the unspecified-tie sort `sortAlg`, `drop_duplicates` keep-first),
then the `required_cols` check, which raises `SystemExit` naming the
missing and the currently available columns.  A missing `Name` column
raises pandas' `KeyError` on line 51. -/
def cleanTickersRun (sortAlg : List (List (Option Str)) → List (List (Option Str)))
    (t : Table) : Except Str Table :=
  match t.cols.findIdx? (fun c => c == strL "Name") with
  | none => .error (strL "KeyError: Name")
  | some ni =>
    let cols1 := t.cols ++ [strL "name_norm"]
    let nni := t.cols.length
    let rows1 := t.rows.map (fun r => r ++ [some (lowerS ((getCellI r ni).getD []))])
    let rows2 := rows1.filter (fun r => !hasExcludeKeyword ((getCellI r nni).getD []))
    let rows3 := rows2.filter (fun r => hasIncludePhrase ((getCellI r nni).getD []))
    let cols2 := cols1 ++ [strL "company_key", strL "class_rank"]
    let cki := cols1.length
    let rows4 := rows3.map (fun r =>
      r ++ [some (normalize_company ((getCellI r nni).getD [])),
            some (rankStr (class_rank ((getCellI r nni).getD [])))])
    let rows5 := keepFirstBy (fun r => getCellI r cki) (sortAlg rows4)
    let missing := requiredCleanCols.filter (fun c => !cols2.contains c)
    if !missing.isEmpty then .error (mkCleanMsg missing cols2)
    else .ok { cols := cols2, rows := rows5 }

/-- A share-class row for the Phase 3 dedup viewed on its own: the
`Symbol` cell (an identifying payload) and the `name_norm` cell. -/
structure CRow where
  sym : Str
  nameNorm : Str
deriving DecidableEq

/-- Phase 3 `drop_duplicates(subset="company_key", keep="first")` applied
to an already rank-sorted row list. -/
def phase3KeepFirst (sorted : List CRow) : List CRow :=
  keepFirstBy (fun r => normalize_company r.nameNorm) sorted

/-- Nondecreasing `class_rank` along a row list. -/
def ranksNondecreasing : List CRow → Bool
  | [] => true
  | [_] => true
  | a :: b :: rest =>
    decide (class_rank a.nameNorm ≤ class_rank b.nameNorm) &&
      ranksNondecreasing (b :: rest)

/-- The contract pandas documents for `sort_values("class_rank")` with the
default `kind='quicksort'`: the output is a permutation of the input with
nondecreasing `class_rank`; the relative order of equal ranks is NOT
specified (only `mergesort`/`stable` are stable). -/
def rankSortedPermOf (input output : List CRow) : Prop :=
  output.Perm input ∧ ranksNondecreasing output = true

/-!
Embedding of enrich_sectors.py.  Cells of the string-typed frame are
`Option Str` (None is NaN).  The per-source fetches
(`build_ref_from_financedatabase`, the two CSV downloads,
`build_ref_from_yfinance`) perform network/database I/O; `main` wraps each
source's block in `try/except`, so a source is modelled by the outcome of
its fetch (`Except`: an exception, or the reference rows it produced) plus
its `allow_new_industry` flag, and the `main` loop runs the sources in
order, skipping one exactly when its fetch raised.
-/

/-- `norm` from enrich_sectors.py on a cell (NaN/None stays None, a
string is stripped, an empty result becomes None). -/
def normO : Option Str → Option Str
  | none => none
  | some s => let u := stripWs s; if u.isEmpty then none else some u

/-- `norm_lower` from enrich_sectors.py on a cell. -/
def normLowerO (s : Option Str) : Option Str := (normO s).map lowerS

/-- `norm` applied to a plain string value. -/
def normStr (s : Str) : Option Str := normO (some s)

/-- `norm_lower` applied to a plain string value. -/
def normLowerStr (s : Str) : Option Str := normLowerO (some s)

/-- The `keyword_map` table of `normalize_sector_to_allowed`, in source
order. -/
def keyword_map : List (List Str × Str) :=
  [([strL "technology", strL "tech", strL "software", strL "semiconductor",
     strL "it services", strL "information technology"], strL "Technology"),
   ([strL "financial", strL "finance", strL "bank", strL "insurance",
     strL "capital markets", strL "asset management", strL "shell companies"],
    strL "Finance"),
   ([strL "health", strL "health care", strL "healthcare", strL "biotech",
     strL "pharmaceutical", strL "medical"], strL "Health Care"),
   ([strL "industrial", strL "industrials", strL "aerospace", strL "defense",
     strL "machinery", strL "transportation", strL "construction"],
    strL "Industrials"),
   ([strL "energy", strL "oil", strL "gas", strL "coal", strL "pipelines"],
    strL "Energy"),
   ([strL "utility", strL "utilities", strL "electric", strL "water",
     strL "gas utilities"], strL "Utilities"),
   ([strL "telecom", strL "telecommunications", strL "communication services"],
    strL "Telecommunications"),
   ([strL "real estate", strL "reit", strL "property"], strL "Real Estate"),
   ([strL "consumer discretionary", strL "discretionary", strL "retail",
     strL "automotive", strL "apparel", strL "restaurants"],
    strL "Consumer Discretionary"),
   ([strL "consumer staples", strL "staples", strL "food", strL "beverage",
     strL "household"], strL "Consumer Staples"),
   ([strL "basic materials", strL "materials", strL "mining", strL "chemicals",
     strL "metals", strL "forest"], strL "Basic Materials")]

/-- Lookup in `allowed_norm = {norm_lower(a): a for a in allowed_sectors
if norm(a)}`: Python dict comprehension semantics make a later entry with
the same normalized key overwrite an earlier one, so the lookup finds the
last matching element. -/
def dictLookupAllowed (allowed : List Str) (v : Str) : Option Str :=
  allowed.reverse.find? (fun a => normLowerStr a == some v)

/-- The `for keys, target in keyword_map` loop of
`normalize_sector_to_allowed`: the first group with a keyword occurring in
`v` as a substring AND an allowed label case-insensitively equal to its
target returns that (first such) label; a group whose target is absent
from the allowed set falls through to the next group. -/
def keywordScan : List (List Str × Str) → Str → List Str → Option Str
  | [], _, _ => none
  | (keys, target) :: rest, v, allowed =>
    if keys.any (fun k => containsSub k v) then
      match allowed.find? (fun a => normLowerStr a == normLowerStr target) with
      | some a => some a
      | none => keywordScan rest v allowed
    else keywordScan rest v allowed

/-- Tokenization used by the overlap fallback:
`set(t for t in v.replace("&", " ").replace("/", " ").split() if t)`. -/
def tokensOf (s : Str) : List Str :=
  dedupFirst (pySplitWs (s.map (fun c => if c == '&' || c == '/' then ' ' else c)))

/-- `len(v_tokens.intersection(a_tokens))` over the deduplicated token
lists. -/
def overlapScore (vT aT : List Str) : Nat :=
  (vT.filter (fun t => aT.contains t)).length

/-- The best-overlap fold of `normalize_sector_to_allowed`: iterate the
allowed labels in order, skip unnormalizable ones, update only on a
strictly greater score (first maximum wins). -/
def bestOverlap (vT : List Str) (allowed : List Str) : Option Str × Nat :=
  allowed.foldl
    (fun acc a =>
      match normLowerStr a with
      | none => acc
      | some an =>
        let sc := overlapScore vT (tokensOf an)
        if acc.2 < sc then (some a, sc) else acc)
    (none, 0)

/-- `normalize_sector_to_allowed` from enrich_sectors.py. -/
def normalize_sector_to_allowed (value : Option Str) (allowed : List Str) :
    Option Str :=
  match normLowerO value with
  | none => none
  | some v =>
    match dictLookupAllowed allowed v with
    | some a => some a
    | none =>
      match keywordScan keyword_map v allowed with
      | some a => some a
      | none =>
        let best := bestOverlap (tokensOf v) allowed
        if 1 ≤ best.2 then best.1 else none

/-- A `ReferenceRecord`: one reference row with `Symbol`, `Sector`,
`Industry` cells. -/
structure RefRecord where
  symbol : Option Str
  sector : Option Str
  industry : Option Str
deriving DecidableEq

/-- A target row of the enrichment frame (`Symbol` is string-typed after
the `astype(str)` normalization in `main`). -/
structure Row where
  symbol : Str
  sector : Option Str
  industry : Option Str
deriving DecidableEq

/-- The missing-cell test used throughout enrich_sectors.py:
`pd.isna(x) or not str(x).strip()`. -/
def cellMissing : Option Str → Bool
  | none => true
  | some s => (stripWs s).isEmpty

/-- Lines 127-130 of `enrich_from_reference`: drop reference rows with a
NaN `Symbol`, upper-case and strip the symbols, keep the first row per
symbol, and index by symbol — looking a symbol up in the result is finding
the first surviving reference row carrying it. -/
def refLookup (refs : List RefRecord) (sym : Str) : Option RefRecord :=
  (refs.filterMap (fun r =>
    match r.symbol with
    | none => none
    | some s => some { r with symbol := some (stripWs (upperS s)) })).find?
      (fun r => r.symbol == some sym)

/-- `allowed_sector_norm = {norm_lower(s) for s in allowed_sectors}`. -/
def allowedNormSet (allowed : List Str) : List (Option Str) :=
  allowed.map (fun s => normLowerStr s)

/-- The `sector_ok` test of `enrich_from_reference` lines 155-156 applied
to a sector cell: the current value, stripped, is non-empty and its
lower-casing is in the normalized allowed set. -/
def sectorOkOf (c : Option Str) (allowed : List Str) : Bool :=
  let sectorNow := match c with | none => [] | some s => stripWs s
  !sectorNow.isEmpty && (allowedNormSet allowed).contains (some (lowerS sectorNow))

/-- Lines 151-153 of `enrich_from_reference`: fill the sector cell when
it is missing and the source's sector mapped into the allowed set. -/
def sectorStepOf (sectorMissing : Bool) (mapped : Option Str)
    (cur : Option Str) : Option Str × Nat :=
  match sectorMissing, mapped with
  | true, some m => (some m, 1)
  | _, _ => (cur, 0)

/-- Lines 158-162 of `enrich_from_reference`: fill the industry cell when
it is missing, the (possibly just filled) sector passed the `sector_ok`
gate, the source may introduce industries, and the source offers a
non-empty industry. -/
def industryStepOf (industryMissing sectorOk allowNewIndustry : Bool)
    (refIndustry : Option Str) (cur : Option Str) : Option Str × Nat :=
  if industryMissing && sectorOk && allowNewIndustry then
    match normO refIndustry with
    | some ind => (some ind, 1)
    | none => (cur, 0)
  else (cur, 0)

/-- The body of the `for idx, row in df_target.iterrows()` loop of
`enrich_from_reference` for one row, returning the updated row and the
number of cells filled in it. -/
def enrichRow (allowed : List Str) (allowNewIndustry : Bool)
    (refs : List RefRecord) (row : Row) : Row × Nat :=
  let sectorMissing := cellMissing row.sector
  let industryMissing := cellMissing row.industry
  if !(sectorMissing || industryMissing) then (row, 0)
  else
    match refLookup refs (stripWs (upperS row.symbol)) with
    | none => (row, 0)
    | some ref =>
      let sectorStep := sectorStepOf sectorMissing
        (normalize_sector_to_allowed ref.sector allowed) row.sector
      let industryStep := industryStepOf industryMissing
        (sectorOkOf sectorStep.1 allowed) allowNewIndustry ref.industry row.industry
      ({ row with sector := sectorStep.1, industry := industryStep.1 },
       sectorStep.2 + industryStep.2)

/-- `enrich_from_reference` from enrich_sectors.py: every target row is
visited once, each row's update depends only on that row, and the filled
cells are counted. -/
def enrich_from_reference (rows : List Row) (refs : List RefRecord)
    (allowed : List Str) (allowNewIndustry : Bool) : List Row × Nat :=
  let results := rows.map (enrichRow allowed allowNewIndustry refs)
  (results.map Prod.fst, (results.map Prod.snd).sum)

/-- One reference source as `main` sees it: the outcome of its fetch
(raising an exception or producing reference rows) and its
`allow_new_industry` flag. -/
structure RefSource where
  fetch : Except Str (List RefRecord)
  allowNewIndustry : Bool

/-- One `try/except` source block of `main` (lines 341-352, 356-374,
376-402, 404-417): a fetch exception means the source contributes nothing
and execution continues; otherwise `enrich_from_reference` runs and its
filled count is added to `filled_total`. -/
def runSource (allowed : List Str) (st : List Row × Nat) (src : RefSource) :
    List Row × Nat :=
  match src.fetch with
  | .error _ => st
  | .ok refs =>
    let res := enrich_from_reference st.1 refs allowed src.allowNewIndustry
    (res.1, st.2 + res.2)

/-- The source blocks of `main` in priority order over `df_work`. -/
def runSources (allowed : List Str) (sources : List RefSource)
    (rows : List Row) : List Row × Nat :=
  sources.foldl (runSource allowed) (rows, 0)

/-- `allowed_sectors = [v for v in df["Sector"].dropna().unique().tolist()
if norm(v)]`. -/
def allowedSectorsOf (rows : List Row) : List Str :=
  (dedupFirst (rows.filterMap Row.sector)).filter (fun v => (normStr v).isSome)

/-- The `needs` mask of `main`. -/
def needsRow (r : Row) : Bool := cellMissing r.sector || cellMissing r.industry

/-- Write the enriched working rows back over the rows selected by the
`needs` mask (`df.loc[df_work.index, ...] = df_work[...]`). -/
def mergeBack : List Row → List Row → List Row
  | [], _ => []
  | r :: rs, ws =>
    if needsRow r then
      match ws with
      | w :: ws2 => w :: mergeBack rs ws2
      | [] => r :: mergeBack rs []
    else r :: mergeBack rs ws

/-- `required = {"Symbol", "Sector", "Industry"}` of `main`. -/
def requiredEnrichCols : List Str := [strL "Symbol", strL "Sector", strL "Industry"]

/-- `sorted(required.difference(df.columns))`. -/
def enrichMissingOf (cols : List Str) : List Str :=
  pySortedStr (requiredEnrichCols.filter (fun c => !cols.contains c))

/-- The `SystemExit` message of enrich_sectors.py line 301:
`f"Missing required columns: {sorted(missing)}"` — it does not mention
the available columns. -/
def mkEnrichMsg (missing : List Str) : Str :=
  strL "Missing required columns: " ++ pyReprStrList missing

/-- `main` of enrich_sectors.py from the required-column check to the
final drop stage: abort with `SystemExit` if a required column is absent;
otherwise normalize the symbols, take the rows still needing enrichment as
`df_work`, compute `allowed_sectors` once, run the sources in order over
`df_work`, merge the result back, and (with
`DROP_MISSING_SECTOR_INDUSTRY = True`) drop every row still missing
sector or industry. -/
def enrichMain (cols : List Str) (rows : List Row) (sources : List RefSource) :
    Except Str (List Row) :=
  let missing := enrichMissingOf cols
  if !missing.isEmpty then .error (mkEnrichMsg missing)
  else
    let rows1 := rows.map (fun r => { r with symbol := stripWs (upperS r.symbol) })
    let allowed := allowedSectorsOf rows1
    let work := rows1.filter needsRow
    if work.isEmpty then .ok (rows1.filter (fun r => !needsRow r))
    else
      let work2 := (runSources allowed sources work).1
      let merged := mergeBack rows1 work2
      .ok (merged.filter (fun r => !needsRow r))

/-!
Helper lemmas: length bounds for the string primitives and each
shorten_name.py stage, plus substring facts for the diagnostic messages.
-/

theorem length_dropWhile_le {α : Type} (p : α → Bool) (l : List α) :
    (l.dropWhile p).length ≤ l.length := by
  induction l with
  | nil => simp
  | cons c cs ih =>
    by_cases h : p c <;> simp [List.dropWhile_cons, h] <;> omega

theorem length_rstripP_le (p : Char → Bool) (s : Str) :
    (rstripP p s).length ≤ s.length := by
  unfold rstripP
  rw [List.length_reverse]
  calc (s.reverse.dropWhile p).length ≤ s.reverse.length := length_dropWhile_le p s.reverse
    _ = s.length := List.length_reverse s

theorem length_stripBothP_le (p : Char → Bool) (s : Str) :
    (stripBothP p s).length ≤ s.length := by
  unfold stripBothP lstripP
  calc ((rstripP p s).dropWhile p).length ≤ (rstripP p s).length :=
        length_dropWhile_le p (rstripP p s)
    _ ≤ s.length := length_rstripP_le p s

theorem length_stripWs_le (s : Str) : (stripWs s).length ≤ s.length :=
  length_stripBothP_le pyIsSpace s

theorem length_rstripPunct_le (s : Str) : (rstripPunct s).length ≤ s.length :=
  length_rstripP_le _ s

theorem length_stripPunct_le (s : Str) : (stripPunct s).length ≤ s.length :=
  length_stripBothP_le _ s

theorem length_joinSp_shift (c : Char) (t : Str) (ts : List Str) :
    (joinSp ((c :: t) :: ts)).length = 1 + (joinSp (t :: ts)).length := by
  cases ts <;> simp [joinSp] <;> omega

theorem length_joinSp_tail_le (t : Str) (ts : List Str) :
    (joinSp ts).length ≤ (joinSp (t :: ts)).length := by
  cases ts <;> simp [joinSp] <;> omega


theorem pySplitWs_cons_space {c : Char} (cs : Str) (h : pyIsSpace c = true) :
    pySplitWs (c :: cs) = pySplitWs cs := by
  simp only [pySplitWs, h, if_true]

theorem pySplitWs_singleton {c : Char} (h : pyIsSpace c = false) :
    pySplitWs [c] = [[c]] := by
  simp only [pySplitWs, h]
  simp

theorem pySplitWs_cons_ns_s {c d : Char} (ds : Str) (h1 : pyIsSpace c = false)
    (h2 : pyIsSpace d = true) :
    pySplitWs (c :: d :: ds) = [c] :: pySplitWs (d :: ds) := by
  simp only [pySplitWs, h1, h2]
  simp

theorem pySplitWs_ne_nil {c : Char} (cs : Str) (h : pyIsSpace c = false) :
    pySplitWs (c :: cs) ≠ [] := by
  cases cs with
  | nil => simp [pySplitWs_singleton h]
  | cons d ds =>
    by_cases h2 : pyIsSpace d
    · simp [pySplitWs_cons_ns_s ds h h2]
    · rw [pySplitWs]
      simp only [h, Bool.false_eq_true, if_false]
      cases hp : pySplitWs (d :: ds) <;> simp [h2, hp]

theorem pySplitWs_cons_ns_ns {c d : Char} (ds : Str) (h1 : pyIsSpace c = false)
    (h2 : pyIsSpace d = false) :
    ∃ t ts, pySplitWs (d :: ds) = t :: ts ∧
      pySplitWs (c :: d :: ds) = (c :: t) :: ts := by
  cases hp : pySplitWs (d :: ds) with
  | nil => exact absurd hp (pySplitWs_ne_nil ds h2)
  | cons t ts =>
    refine ⟨t, ts, rfl, ?_⟩
    rw [pySplitWs]
    simp only [h1, Bool.false_eq_true, if_false]
    simp only [h2, Bool.false_eq_true, if_false]
    rw [hp]

theorem length_joinSp_splitWs_le : ∀ s : Str, (joinSp (pySplitWs s)).length ≤ s.length
  | [] => by simp [pySplitWs, joinSp]
  | [c] => by
    by_cases h : pyIsSpace c
    · rw [pySplitWs_cons_space [] h]
      simp [pySplitWs, joinSp]
    · simp [pySplitWs_singleton (by simpa using h), joinSp]
  | c :: d :: ds => by
    have htail := length_joinSp_splitWs_le (d :: ds)
    by_cases h1 : pyIsSpace c
    · rw [pySplitWs_cons_space (d :: ds) h1]
      simp only [List.length_cons] at htail ⊢
      omega
    · by_cases h2 : pyIsSpace d
      · rw [pySplitWs_cons_ns_s ds (by simpa using h1) h2]
        rw [pySplitWs_cons_space ds h2]
        have hds := length_joinSp_splitWs_le ds
        cases hp : pySplitWs ds with
        | nil => simp [joinSp]
        | cons t ts =>
          rw [hp] at hds
          simp only [joinSp, List.length_append, List.length_cons,
            List.length_nil] at hds ⊢
          omega
      · obtain ⟨t, ts, hp, hq⟩ :=
          pySplitWs_cons_ns_ns ds (by simpa using h1) (by simpa using h2)
        rw [hq]
        rw [hp] at htail
        have hsh := length_joinSp_shift c t ts
        simp only [List.length_cons] at htail ⊢
        omega

theorem length_collapseStripWs_le (s : Str) : (collapseStripWs s).length ≤ s.length :=
  length_joinSp_splitWs_le s

theorem length_normalize_whitespace_le (s : Str) :
    (normalize_whitespace s).length ≤ s.length := by
  unfold normalize_whitespace
  calc (collapseStripWs (s.map charMapNorm)).length ≤ (s.map charMapNorm).length :=
        length_collapseStripWs_le _
    _ = s.length := List.length_map _ _


theorem length_joinSp_drop_le (n : Nat) (ts : List Str) :
    (joinSp (ts.drop n)).length ≤ (joinSp ts).length := by
  induction ts generalizing n with
  | nil => simp
  | cons t ts ih =>
    cases n with
    | zero => simp
    | succ m =>
      simp only [List.drop_succ_cons]
      calc (joinSp (ts.drop m)).length ≤ (joinSp ts).length := ih m
        _ ≤ (joinSp (t :: ts)).length := length_joinSp_tail_le t ts

theorem length_joinSp_dropLast_le (ts : List Str) :
    (joinSp ts.dropLast).length ≤ (joinSp ts).length := by
  induction ts with
  | nil => simp
  | cons t ts ih =>
    cases ts with
    | nil => simp [joinSp]
    | cons u us =>
      have hd : (t :: u :: us).dropLast = t :: (u :: us).dropLast := rfl
      rw [hd]
      cases he : (u :: us).dropLast with
      | nil => simp [joinSp]
      | cons w ws =>
        rw [he] at ih
        simp only [joinSp, List.length_append, List.length_cons] at ih ⊢
        omega

theorem pySplitChar_ne_nil (sep : Char) : ∀ s : Str, pySplitChar sep s ≠ []
  | [] => by simp [pySplitChar]
  | c :: cs => by
    by_cases h : c == sep
    · simp only [pySplitChar, h, if_true]
      simp
    · simp only [pySplitChar]
      rw [if_neg h]
      cases hp : pySplitChar sep cs <;> simp

theorem joinSp_pySplitChar_space : ∀ s : Str, joinSp (pySplitChar ' ' s) = s
  | [] => by simp [pySplitChar, joinSp]
  | c :: cs => by
    have ih := joinSp_pySplitChar_space cs
    by_cases h : c == ' '
    · simp only [pySplitChar, h, if_true]
      cases hp : pySplitChar ' ' cs with
      | nil => exact absurd hp (pySplitChar_ne_nil ' ' cs)
      | cons t ts =>
        rw [hp] at ih
        simp only [joinSp, List.nil_append]
        rw [ih]
        have hc : c = ' ' := by simpa using h
        rw [hc]
    · simp only [pySplitChar]
      rw [if_neg h]
      cases hp : pySplitChar ' ' cs with
      | nil => exact absurd hp (pySplitChar_ne_nil ' ' cs)
      | cons t ts =>
        rw [hp] at ih
        cases ts with
        | nil =>
          simp only [joinSp] at ih ⊢
          rw [ih]
        | cons u us =>
          simp only [joinSp, List.cons_append] at ih ⊢
          rw [ih]

theorem length_reSubEnd_le (m : Matcher) (s : Str) :
    (reSubEnd m s).length ≤ s.length := by
  unfold reSubEnd
  cases reSearch m s with
  | none => exact Nat.le_refl _
  | some p =>
    cases p with
    | mk a b =>
      simp only [List.length_take]
      omega

theorem length_foldl_reSubEnd_le :
    ∀ (ms : List Matcher) (s : Str),
      (ms.foldl (fun t m => reSubEnd m t) s).length ≤ s.length
  | [], s => Nat.le_refl _
  | m :: ms, s => by
    simp only [List.foldl_cons]
    calc (ms.foldl (fun t m => reSubEnd m t) (reSubEnd m s)).length
        ≤ (reSubEnd m s).length := length_foldl_reSubEnd_le ms (reSubEnd m s)
      _ ≤ s.length := length_reSubEnd_le m s

theorem length_takeUntilClose :
    ∀ (cs g rest : Str), takeUntilClose cs = some (g, rest) →
      cs.length = g.length + 1 + rest.length
  | [], g, rest => by simp [takeUntilClose]
  | c :: cs, g, rest => by
    by_cases h : c == ')'
    · simp only [takeUntilClose, h, if_true]
      intro he
      cases he
      simp
      omega
    · simp only [takeUntilClose]
      rw [if_neg h]
      cases hp : takeUntilClose cs with
      | none => intro he; simp at he
      | some p =>
        cases p with
        | mk g2 rest2 =>
          intro he
          simp only [Option.map_some'] at he
          cases he
          have := length_takeUntilClose cs g2 _ hp
          simp only [List.length_cons]
          omega

theorem length_parenRepl_le (g : Str) : (parenRepl g).length ≤ g.length + 2 := by
  simp only [parenRepl]
  split
  · simp
  · split
    · simp
    · split
      · simp
      · simp only [List.length_cons, List.length_append]
        have := length_stripWs_le g
        simp only [List.length_cons, List.length_nil]
        omega

theorem length_parenSubAux_le : ∀ (fuel : Nat) (s : Str),
    (parenSubAux fuel s).length ≤ s.length
  | 0, s => Nat.le_refl _
  | _ + 1, [] => by simp [parenSubAux]
  | fuel + 1, c :: cs => by
    by_cases h : c == '('
    · simp only [parenSubAux, h, if_true]
      cases hp : takeUntilClose cs with
      | none =>
        simp only [List.length_cons]
        have := length_parenSubAux_le fuel cs
        omega
      | some p =>
        cases p with
        | mk g rest =>
          have hl := length_takeUntilClose cs g rest hp
          have h1 := length_parenRepl_le g
          have h2 := length_parenSubAux_le fuel rest
          simp only [List.length_append, List.length_cons]
          omega
    · simp only [parenSubAux]
      rw [if_neg h]
      simp only [List.length_cons]
      have := length_parenSubAux_le fuel cs
      omega

theorem length_parenSub_le (s : Str) : (parenSub s).length ≤ s.length :=
  length_parenSubAux_le (s.length + 1) s

theorem length_descLoopBody_le (s : Str) : (descLoopBody s).length ≤ s.length := by
  simp only [descLoopBody]
  calc (normalize_whitespace (stripWs (reSubEnd emptyParenEndM
          (trailingPatterns.foldl (fun t m => reSubEnd m t) (rstripPunct s))))).length
      ≤ (stripWs (reSubEnd emptyParenEndM
          (trailingPatterns.foldl (fun t m => reSubEnd m t) (rstripPunct s)))).length :=
        length_normalize_whitespace_le _
    _ ≤ (reSubEnd emptyParenEndM
          (trailingPatterns.foldl (fun t m => reSubEnd m t) (rstripPunct s))).length :=
        length_stripWs_le _
    _ ≤ ((trailingPatterns.foldl (fun t m => reSubEnd m t) (rstripPunct s))).length :=
        length_reSubEnd_le _ _
    _ ≤ (rstripPunct s).length := length_foldl_reSubEnd_le _ _
    _ ≤ s.length := length_rstripPunct_le s

theorem length_descLoop_le : ∀ (fuel : Nat) (s : Str),
    (descLoop fuel s).length ≤ s.length
  | 0, s => Nat.le_refl _
  | fuel + 1, s => by
    simp only [descLoop]
    split
    · exact length_descLoopBody_le s
    · calc (descLoop fuel (descLoopBody s)).length ≤ (descLoopBody s).length :=
            length_descLoop_le fuel (descLoopBody s)
        _ ≤ s.length := length_descLoopBody_le s

theorem length_dupCollapse_le (s : Str) : (dupCollapse s).length ≤ s.length := by
  simp only [dupCollapse]
  split
  · split
    · calc (stripWs (joinSp ((pySplitChar ' ' s).drop ((pySplitChar ' ' s).length / 2)))).length
          ≤ (joinSp ((pySplitChar ' ' s).drop ((pySplitChar ' ' s).length / 2))).length :=
            length_stripWs_le _
        _ ≤ (joinSp (pySplitChar ' ' s)).length := length_joinSp_drop_le _ _
        _ = s.length := by rw [joinSp_pySplitChar_space]
    · exact Nat.le_refl _
  · exact Nat.le_refl _

theorem length_stsd_le (name : Str) :
    (strip_trailing_security_descriptors name).length ≤ name.length := by
  simp only [strip_trailing_security_descriptors]
  calc (normalize_whitespace (stripPunct (descLoop _ (normalize_whitespace
          (parenSub (dupCollapse (normalize_whitespace (stripWs name)))))))).length
      ≤ (stripPunct (descLoop _ (normalize_whitespace
          (parenSub (dupCollapse (normalize_whitespace (stripWs name))))))).length :=
        length_normalize_whitespace_le _
    _ ≤ (descLoop _ (normalize_whitespace
          (parenSub (dupCollapse (normalize_whitespace (stripWs name)))))).length :=
        length_stripPunct_le _
    _ ≤ (normalize_whitespace
          (parenSub (dupCollapse (normalize_whitespace (stripWs name))))).length :=
        length_descLoop_le _ _
    _ ≤ (parenSub (dupCollapse (normalize_whitespace (stripWs name)))).length :=
        length_normalize_whitespace_le _
    _ ≤ (dupCollapse (normalize_whitespace (stripWs name))).length :=
        length_parenSub_le _
    _ ≤ (normalize_whitespace (stripWs name)).length := length_dupCollapse_le _
    _ ≤ (stripWs name).length := length_normalize_whitespace_le _
    _ ≤ name.length := length_stripWs_le name

theorem length_truncate_le (name : Str) :
    (truncate_after_legal_suffix name).length ≤ name.length := by
  simp only [truncate_after_legal_suffix]
  have hn : (normalize_whitespace (stripWs name)).length ≤ name.length :=
    Nat.le_trans (length_normalize_whitespace_le _) (length_stripWs_le name)
  cases hr : reSearch legalSuffixM (normalize_whitespace (stripWs name)) with
  | none => exact hn
  | some p =>
    cases p with
    | mk a e =>
      calc (normalize_whitespace (rstripPunct
              ((normalize_whitespace (stripWs name)).take e))).length
          ≤ (rstripPunct ((normalize_whitespace (stripWs name)).take e)).length :=
            length_normalize_whitespace_le _
        _ ≤ ((normalize_whitespace (stripWs name)).take e).length :=
            length_rstripPunct_le _
        _ ≤ (normalize_whitespace (stripWs name)).length := by
            simp only [List.length_take]; omega
        _ ≤ name.length := hn

theorem length_dropTok_le (s : Str) :
    (normalize_whitespace (stripWs (joinSp (pySplitChar ' ' s).dropLast))).length ≤
      s.length := by
  calc (normalize_whitespace (stripWs (joinSp (pySplitChar ' ' s).dropLast))).length
      ≤ (stripWs (joinSp (pySplitChar ' ' s).dropLast)).length :=
        length_normalize_whitespace_le _
    _ ≤ (joinSp (pySplitChar ' ' s).dropLast).length := length_stripWs_le _
    _ ≤ (joinSp (pySplitChar ' ' s)).length := length_joinSp_dropLast_le _
    _ = s.length := by rw [joinSp_pySplitChar_space]

theorem length_remTokLoop_le : ∀ (fuel : Nat) (s : Str),
    (remTokLoop fuel s).length ≤ s.length
  | 0, s => Nat.le_refl _
  | fuel + 1, s => by
    simp only [remTokLoop]
    split
    · exact Nat.le_refl _
    · split
      · exact length_rstripPunct_le s
      · split
        · exact length_rstripPunct_le s
        · split
          · split
            · exact Nat.le_trans (length_dropTok_le (rstripPunct s))
                (length_rstripPunct_le s)
            · calc (remTokLoop fuel _).length
                  ≤ _ := length_remTokLoop_le fuel _
                _ ≤ s.length := Nat.le_trans (length_dropTok_le (rstripPunct s))
                    (length_rstripPunct_le s)
          · split
            · exact length_rstripPunct_le s
            · calc (remTokLoop fuel (rstripPunct s)).length
                  ≤ (rstripPunct s).length := length_remTokLoop_le fuel _
                _ ≤ s.length := length_rstripPunct_le s

theorem length_rtlst_le (name : Str) :
    (remove_trailing_legal_suffix_tokens name).length ≤ name.length := by
  simp only [remove_trailing_legal_suffix_tokens]
  have hn : (normalize_whitespace (stripWs name)).length ≤ name.length :=
    Nat.le_trans (length_normalize_whitespace_le _) (length_stripWs_le name)
  split
  · exact hn
  · exact Nat.le_trans (length_remTokLoop_le _ _) hn

theorem length_enforce_le_input (name : Str) (maxLen : Nat) :
    (enforce_max_len name maxLen).length ≤ name.length := by
  simp only [enforce_max_len]
  have hn : (normalize_whitespace (stripWs name)).length ≤ name.length :=
    Nat.le_trans (length_normalize_whitespace_le _) (length_stripWs_le name)
  split
  · exact hn
  · calc (normalize_whitespace (rstripPunct
            ((normalize_whitespace (stripWs name)).take maxLen))).length
        ≤ (rstripPunct ((normalize_whitespace (stripWs name)).take maxLen)).length :=
          length_normalize_whitespace_le _
      _ ≤ ((normalize_whitespace (stripWs name)).take maxLen).length :=
          length_rstripPunct_le _
      _ ≤ (normalize_whitespace (stripWs name)).length := by
          simp only [List.length_take]; omega
      _ ≤ name.length := hn

theorem length_enforce_le_max (name : Str) (maxLen : Nat) :
    (enforce_max_len name maxLen).length ≤ maxLen := by
  simp only [enforce_max_len]
  split
  · omega
  · calc (normalize_whitespace (rstripPunct
            ((normalize_whitespace (stripWs name)).take maxLen))).length
        ≤ (rstripPunct ((normalize_whitespace (stripWs name)).take maxLen)).length :=
          length_normalize_whitespace_le _
      _ ≤ ((normalize_whitespace (stripWs name)).take maxLen).length :=
          length_rstripPunct_le _
      _ ≤ maxLen := by simp only [List.length_take]; omega

theorem length_dropTokWs_le (t : Str) :
    (normalize_whitespace (stripWs (joinSp (pySplitWs t).dropLast))).length ≤
      t.length := by
  calc (normalize_whitespace (stripWs (joinSp (pySplitWs t).dropLast))).length
      ≤ (stripWs (joinSp (pySplitWs t).dropLast)).length :=
        length_normalize_whitespace_le _
    _ ≤ (joinSp (pySplitWs t).dropLast).length := length_stripWs_le _
    _ ≤ (joinSp (pySplitWs t)).length := length_joinSp_dropLast_le _
    _ ≤ t.length := length_joinSp_splitWs_le t

theorem length_sts_le (name : Str) :
    (strip_trailing_symbol name).length ≤ name.length := by
  simp only [strip_trailing_symbol]
  have hn : (normalize_whitespace (stripWs name)).length ≤ name.length :=
    Nat.le_trans (length_normalize_whitespace_le _) (length_stripWs_le name)
  split
  · exact hn
  · split
    · exact hn
    · split
      · split
        · exact Nat.le_trans (length_dropTokWs_le _) hn
        · exact hn
      · exact hn

theorem length_std_le (name : Str) :
    (strip_trailing_dotted name).length ≤ name.length := by
  simp only [strip_trailing_dotted]
  have hn : (normalize_whitespace (stripWs name)).length ≤ name.length :=
    Nat.le_trans (length_normalize_whitespace_le _) (length_stripWs_le name)
  split
  · exact hn
  · split
    · exact hn
    · split
      · exact Nat.le_trans (length_dropTokWs_le _) hn
      · exact hn


theorem make_short_name_eq (s : Str) :
    make_short_name s =
      strip_trailing_dotted (strip_trailing_symbol (enforce_max_len
        (remove_trailing_legal_suffix_tokens (truncate_after_legal_suffix
          (strip_trailing_security_descriptors s))) MAX_NAME_LEN)) := by
  show strip_trailing_dotted
    (strip_trailing_symbol
      ((if ENFORCE_MAX_NAME_LEN && decide (0 < MAX_NAME_LEN) then
          (fun t => enforce_max_len t MAX_NAME_LEN) else id)
        ((if REMOVE_TRAILING_LEGAL_SUFFIX_TOKENS then
            remove_trailing_legal_suffix_tokens else id)
          ((if TRUNCATE_AFTER_LEGAL_SUFFIX then
              truncate_after_legal_suffix else id)
            (strip_trailing_security_descriptors s))))) = _
  simp only [TRUNCATE_AFTER_LEGAL_SUFFIX, REMOVE_TRAILING_LEGAL_SUFFIX_TOKENS,
    ENFORCE_MAX_NAME_LEN, MAX_NAME_LEN]
  norm_num

theorem length_make_short_name_le (s : Str) :
    (make_short_name s).length ≤ s.length := by
  rw [make_short_name_eq]
  calc (strip_trailing_dotted (strip_trailing_symbol (enforce_max_len
          (remove_trailing_legal_suffix_tokens (truncate_after_legal_suffix
            (strip_trailing_security_descriptors s))) MAX_NAME_LEN))).length
      ≤ (strip_trailing_symbol (enforce_max_len
          (remove_trailing_legal_suffix_tokens (truncate_after_legal_suffix
            (strip_trailing_security_descriptors s))) MAX_NAME_LEN)).length :=
        length_std_le _
    _ ≤ (enforce_max_len (remove_trailing_legal_suffix_tokens
          (truncate_after_legal_suffix
            (strip_trailing_security_descriptors s))) MAX_NAME_LEN).length :=
        length_sts_le _
    _ ≤ (remove_trailing_legal_suffix_tokens (truncate_after_legal_suffix
          (strip_trailing_security_descriptors s))).length :=
        length_enforce_le_input _ _
    _ ≤ (truncate_after_legal_suffix
          (strip_trailing_security_descriptors s)).length := length_rtlst_le _
    _ ≤ (strip_trailing_security_descriptors s).length := length_truncate_le _
    _ ≤ s.length := length_stsd_le s

/-!
Claim theorems.
-/

/-- C10: for every input string, with length enforcement enabled and
`MAX_NAME_LEN = 50`, the string returned by `make_short_name` has length
at most 50: `enforce_max_len` truncates to the budget and the two steps
applied after it (trailing-symbol strip, trailing-dotted-token strip) only
remove characters. -/
theorem c10_make_short_name_length_le_50 (s : Str) :
    (make_short_name s).length ≤ 50 := by
  rw [make_short_name_eq]
  have h50 : MAX_NAME_LEN = 50 := rfl
  calc (strip_trailing_dotted (strip_trailing_symbol (enforce_max_len
          (remove_trailing_legal_suffix_tokens (truncate_after_legal_suffix
            (strip_trailing_security_descriptors s))) MAX_NAME_LEN))).length
      ≤ (strip_trailing_symbol (enforce_max_len
          (remove_trailing_legal_suffix_tokens (truncate_after_legal_suffix
            (strip_trailing_security_descriptors s))) MAX_NAME_LEN)).length :=
        length_std_le _
    _ ≤ (enforce_max_len (remove_trailing_legal_suffix_tokens
          (truncate_after_legal_suffix
            (strip_trailing_security_descriptors s))) MAX_NAME_LEN).length :=
        length_sts_le _
    _ ≤ MAX_NAME_LEN := length_enforce_le_max _ _
    _ = 50 := h50

set_option maxRecDepth 100000 in
/-- C7 counterexample: `make_short_name` is not idempotent.  On
"Acme Class A Ltd" the first pass strips the trailing legal-suffix token
"Ltd" (yielding "Acme Class A"), which exposes a trailing class
descriptor that only the descriptor stripper (the first stage) removes,
so a second pass yields the strictly shorter "Acme". -/
theorem c7_counterexample :
    make_short_name (make_short_name (strL "Acme Class A Ltd")) ≠
      make_short_name (strL "Acme Class A Ltd") := by decide

/-- C7 (amended): re-running `make_short_name` on its own output can
strip further (see the counterexample), so the pipeline is not
idempotent; what holds is that applying it again never lengthens the
string — every stage only removes characters — so iteration is monotone
nonincreasing in length. -/
theorem c7_shorten_length_monotone (s : Str) :
    (make_short_name (make_short_name s)).length ≤ (make_short_name s).length ∧
      (make_short_name s).length ≤ s.length :=
  ⟨length_make_short_name_le (make_short_name s), length_make_short_name_le s⟩

/-- C8: for every security name whose lower-cased form contains an
exclusion keyword, classification returns false (the Phase 1 filter
removes the row before the Phase 2 inclusion check is consulted), even if
the name also contains an inclusion phrase: exclusion is evaluated first
and unconditionally. -/
theorem c8_exclusion_precedence (name : Option Str)
    (h : hasExcludeKeyword (lowerS (name.getD [])) = true) :
    classify name = false := by
  simp only [classify, h, Bool.not_true, Bool.false_and]

/-- C8 witness: a name containing both the exclusion keyword "depositary"
and the inclusion phrase "common stock" is classified false. -/
theorem c8_witness :
    hasExcludeKeyword (lowerS ((some (strL "Acme Depositary Shares Common Stock")).getD [])) = true ∧
    hasIncludePhrase (lowerS ((some (strL "Acme Depositary Shares Common Stock")).getD [])) = true ∧
    classify (some (strL "Acme Depositary Shares Common Stock")) = false :=
  ⟨by decide, by decide,
    c8_exclusion_precedence (some (strL "Acme Depositary Shares Common Stock")) (by decide)⟩

theorem keywordScan_cons_hit {keys : List Str} {target : Str}
    {rest : List (List Str × Str)} {v : Str} {allowed : List Str} {a : Str}
    (h1 : keys.any (fun k => containsSub k v) = true)
    (h2 : allowed.find? (fun x => normLowerStr x == normLowerStr target) = some a) :
    keywordScan ((keys, target) :: rest) v allowed = some a := by
  simp only [keywordScan, h1, if_true, h2]

theorem keywordScan_all_miss :
    ∀ (km : List (List Str × Str)) (v : Str) (allowed : List Str),
      km.all (fun p => p.1.all (fun k => !containsSub k v)) = true →
      keywordScan km v allowed = none
  | [], _, _, _ => rfl
  | (keys, target) :: rest, v, allowed, h => by
    simp only [List.all_cons, Bool.and_eq_true] at h
    have hmiss : keys.any (fun k => containsSub k v) = false := by
      rw [List.any_eq_false]
      intro k hk
      have := (List.all_eq_true.mp h.1) k hk
      simpa using this
    simp only [keywordScan, hmiss, Bool.false_eq_true, if_false]
    exact keywordScan_all_miss rest v allowed h.2

theorem bestOverlap_foldl_zero (vT : List Str) :
    ∀ (l : List Str) (acc : Option Str × Nat),
      (∀ a ∈ l, ∀ an, normLowerStr a = some an → overlapScore vT (tokensOf an) = 0) →
      l.foldl
        (fun acc a =>
          match normLowerStr a with
          | none => acc
          | some an =>
            let sc := overlapScore vT (tokensOf an)
            if acc.2 < sc then (some a, sc) else acc) acc = acc
  | [], _, _ => rfl
  | a :: l, acc, h => by
    simp only [List.foldl_cons]
    have hstep :
        (match normLowerStr a with
         | none => acc
         | some an =>
           let sc := overlapScore vT (tokensOf an)
           if acc.2 < sc then (some a, sc) else acc) = acc := by
      cases hn : normLowerStr a with
      | none => rfl
      | some an =>
        have hz := h a (by simp) an hn
        simp only [hz]
        simp
    rw [hstep]
    exact bestOverlap_foldl_zero vT l acc (fun x hx => h x (by simp [hx]))

theorem bestOverlap_zero (vT : List Str) (allowed : List Str)
    (h : ∀ a ∈ allowed, ∀ an, normLowerStr a = some an →
      overlapScore vT (tokensOf an) = 0) :
    bestOverlap vT allowed = (none, 0) :=
  bestOverlap_foldl_zero vT allowed (none, 0) h

/-- C9 counterexample: the claim "the raw value Information Technology
maps to the allowed label Technology whenever Technology is in the
allowed set" fails: when some allowed label itself normalizes to
"information technology", the exact case-insensitive match intercepts and
returns that label instead; and when an earlier allowed label is a case
variant of Technology, the keyword table returns the case variant, not
the label "Technology". -/
theorem c9_counterexample :
    normalize_sector_to_allowed (some (strL "Information Technology"))
        [strL "Information Technology", strL "Technology"] =
      some (strL "Information Technology") ∧
    strL "Information Technology" ≠ strL "Technology" ∧
    normalize_sector_to_allowed (some (strL "Information Technology"))
        [strL "TECHNOLOGY", strL "Technology"] = some (strL "TECHNOLOGY") := by
  refine ⟨by decide, by decide, by decide⟩

/-- C9 (amended): (a) "Information Technology" maps to the FIRST allowed
label case-insensitively equal to "Technology", PROVIDED no allowed label
case-insensitively equals "Information Technology" itself — exact
case-insensitive match against the allowed set takes precedence over the
keyword table and the token-overlap fallback; (b) "Zzqq Nonsense" maps to
no match whenever no allowed label's token set contains "zzqq" or
"nonsense" (no keyword of the fixed table occurs in it, and the overlap
fallback needs a shared token). -/
theorem c9_amended :
    (∀ (allowed : List Str) (a : Str),
      (∀ x ∈ allowed, normLowerStr x ≠ some (strL "information technology")) →
      allowed.find? (fun x => normLowerStr x == some (strL "technology")) = some a →
      normalize_sector_to_allowed (some (strL "Information Technology")) allowed =
        some a) ∧
    (∀ allowed : List Str,
      (∀ x ∈ allowed, ∀ xn, normLowerStr x = some xn →
        (tokensOf xn).contains (strL "zzqq") = false ∧
        (tokensOf xn).contains (strL "nonsense") = false) →
      normalize_sector_to_allowed (some (strL "Zzqq Nonsense")) allowed = none) := by
  constructor
  · intro allowed a h1 h2
    have hv : normLowerO (some (strL "Information Technology")) =
        some (strL "information technology") := by decide
    have hd : dictLookupAllowed allowed (strL "information technology") = none := by
      unfold dictLookupAllowed
      rw [List.find?_eq_none]
      intro x hx
      have := h1 x (List.mem_reverse.mp hx)
      simpa using this
    have hT : normLowerStr (strL "Technology") = some (strL "technology") := by decide
    have hscan : keywordScan keyword_map (strL "information technology") allowed =
        some a := by
      unfold keyword_map
      refine keywordScan_cons_hit (by decide) ?_
      simp only [hT]
      exact h2
    simp only [normalize_sector_to_allowed, hv, hd, hscan]
  · intro allowed h
    have hv : normLowerO (some (strL "Zzqq Nonsense")) =
        some (strL "zzqq nonsense") := by decide
    have hd : dictLookupAllowed allowed (strL "zzqq nonsense") = none := by
      unfold dictLookupAllowed
      rw [List.find?_eq_none]
      intro x hx
      intro hbeq
      have hx2 := List.mem_reverse.mp hx
      have heq : normLowerStr x = some (strL "zzqq nonsense") := by
        simpa using hbeq
      have := (h x hx2 (strL "zzqq nonsense") heq).1
      have hcontra : (tokensOf (strL "zzqq nonsense")).contains (strL "zzqq") = true := by
        decide
      rw [hcontra] at this
      simp at this
    have hscan : keywordScan keyword_map (strL "zzqq nonsense") allowed = none :=
      keywordScan_all_miss keyword_map (strL "zzqq nonsense") allowed (by decide)
    have hover : ∀ a ∈ allowed, ∀ an, normLowerStr a = some an →
        overlapScore (tokensOf (strL "zzqq nonsense")) (tokensOf an) = 0 := by
      intro a ha an han
      obtain ⟨hz, hn⟩ := h a ha an han
      have hvt : tokensOf (strL "zzqq nonsense") = [strL "zzqq", strL "nonsense"] := by
        decide
      rw [hvt]
      simp only [overlapScore, List.filter, hz, hn]
      rfl
    have hbest : bestOverlap (tokensOf (strL "zzqq nonsense")) allowed = (none, 0) :=
      bestOverlap_zero _ allowed hover
    simp only [normalize_sector_to_allowed, hv, hd, hscan, hbest]
    rfl

/-- C9 amended witness: with allowed set ["Finance", "Technology"] the raw
value "Information Technology" maps to "Technology", and "Zzqq Nonsense"
maps to no match. -/
theorem c9_amended_witness :
    normalize_sector_to_allowed (some (strL "Information Technology"))
        [strL "Finance", strL "Technology"] = some (strL "Technology") ∧
    normalize_sector_to_allowed (some (strL "Zzqq Nonsense"))
        [strL "Finance", strL "Technology"] = none :=
  ⟨c9_amended.1 [strL "Finance", strL "Technology"] (strL "Technology")
      (by decide) (by decide),
   c9_amended.2 [strL "Finance", strL "Technology"] (by decide)⟩

/-- C4 counterexample: within one source's reference set,
`enrich_from_reference` deduplicates with `keep="first"`, so of two
records for the same symbol "AAA" the FIRST one ("Energy"/"Oil") is used
for enrichment — not the last one ("Utilities"/"Water") as the claim's
last-write-wins would require. -/
theorem c4_counterexample :
    (enrich_from_reference [⟨strL "AAA", none, none⟩]
        [⟨some (strL "AAA"), some (strL "Energy"), some (strL "Oil")⟩,
         ⟨some (strL "AAA"), some (strL "Utilities"), some (strL "Water")⟩]
        [strL "Energy", strL "Utilities"] true).1 =
      [⟨strL "AAA", some (strL "Energy"), some (strL "Oil")⟩] ∧
    some (strL "Energy") ≠ some (strL "Utilities") := ⟨by decide, by decide⟩

theorem refLookup_cons_of_earlier {l1 l2 : List RefRecord} {r r0 : RefRecord}
    {s0 s : Str} (h0 : r0 ∈ l1) (hs0 : r0.symbol = some s0)
    (hs : r.symbol = some s) (heq : stripWs (upperS s0) = stripWs (upperS s)) :
    ∀ sym : Str, refLookup (l1 ++ r :: l2) sym = refLookup (l1 ++ l2) sym := by
  intro sym
  unfold refLookup
  rw [List.filterMap_append, List.filterMap_append, List.filterMap_cons]
  rw [hs]
  simp only [List.find?_append]
  cases hf : (l1.filterMap (fun r =>
      match r.symbol with
      | none => none
      | some s => some { r with symbol := some (stripWs (upperS s)) })).find?
      (fun r => r.symbol == some sym) with
  | some x => simp
  | none =>
    simp only [Option.none_or]
    rw [List.find?_eq_none] at hf
    have hmem : ({ r0 with symbol := some (stripWs (upperS s0)) } : RefRecord) ∈
        l1.filterMap (fun r =>
          match r.symbol with
          | none => none
          | some s => some { r with symbol := some (stripWs (upperS s)) }) := by
      rw [List.mem_filterMap]
      exact ⟨r0, h0, by rw [hs0]⟩
    have hne := hf _ hmem
    have hrne : ¬((some (stripWs (upperS s)) : Option Str) == some sym) = true := by
      rw [← heq]
      simpa using hne
    have hfalse : (some (stripWs (upperS s)) == some sym) = false := by
      simpa using hrne
    simp only [List.find?_cons, hfalse]

theorem enrichRow_refs_cons_of_earlier {l1 l2 : List RefRecord} {r r0 : RefRecord}
    {s0 s : Str} (h0 : r0 ∈ l1) (hs0 : r0.symbol = some s0)
    (hs : r.symbol = some s) (heq : stripWs (upperS s0) = stripWs (upperS s))
    (allowed : List Str) (anI : Bool) (row : Row) :
    enrichRow allowed anI (l1 ++ r :: l2) row = enrichRow allowed anI (l1 ++ l2) row := by
  unfold enrichRow
  rw [refLookup_cons_of_earlier h0 hs0 hs heq]

/-- C4 (amended): within one source's reference set the record used for
enrichment is the FIRST one carrying a given symbol (keep-first on
duplicate symbols): a record whose (normalized) symbol already occurs on
an earlier record of the same source can be deleted without changing the
enrichment result at all. -/
theorem c4_amended_keep_first {l1 l2 : List RefRecord} {r r0 : RefRecord}
    {s0 s : Str} (h0 : r0 ∈ l1) (hs0 : r0.symbol = some s0)
    (hs : r.symbol = some s) (heq : stripWs (upperS s0) = stripWs (upperS s))
    (rows : List Row) (allowed : List Str) (anI : Bool) :
    enrich_from_reference rows (l1 ++ r :: l2) allowed anI =
      enrich_from_reference rows (l1 ++ l2) allowed anI := by
  unfold enrich_from_reference
  have hmap : rows.map (enrichRow allowed anI (l1 ++ r :: l2)) =
      rows.map (enrichRow allowed anI (l1 ++ l2)) :=
    List.map_congr_left (fun row _ =>
      enrichRow_refs_cons_of_earlier h0 hs0 hs heq allowed anI row)
  rw [hmap]

/-- C4 amended witness: deleting the later duplicate "AAA" record leaves
the enrichment of a concrete row unchanged. -/
theorem c4_amended_witness :
    enrich_from_reference [⟨strL "AAA", none, none⟩]
        ([⟨some (strL "AAA"), some (strL "Energy"), some (strL "Oil")⟩] ++
          ⟨some (strL "AAA"), some (strL "Utilities"), some (strL "Water")⟩ :: [])
        [strL "Energy", strL "Utilities"] true =
      enrich_from_reference [⟨strL "AAA", none, none⟩]
        ([⟨some (strL "AAA"), some (strL "Energy"), some (strL "Oil")⟩] ++ [])
        [strL "Energy", strL "Utilities"] true :=
  c4_amended_keep_first (List.mem_singleton.mpr rfl) rfl rfl (by decide)
    [⟨strL "AAA", none, none⟩] [strL "Energy", strL "Utilities"] true

theorem enrichRow_sector_pres (allowed : List Str) (anI : Bool)
    (refs : List RefRecord) (row : Row) (h : cellMissing row.sector = false) :
    (enrichRow allowed anI refs row).1.sector = row.sector := by
  simp only [enrichRow, h]
  split
  · rfl
  · split
    · rfl
    · rfl

theorem enrichRow_industry_pres (allowed : List Str) (anI : Bool)
    (refs : List RefRecord) (row : Row) (h : cellMissing row.industry = false) :
    (enrichRow allowed anI refs row).1.industry = row.industry := by
  simp only [enrichRow, h]
  split
  · rfl
  · split
    · rfl
    · rfl

theorem enrich_from_reference_fst (rows : List Row) (refs : List RefRecord)
    (allowed : List Str) (anI : Bool) :
    (enrich_from_reference rows refs allowed anI).1 =
      rows.map (fun r => (enrichRow allowed anI refs r).1) := by
  simp [enrich_from_reference, List.map_map]

theorem foldl_runSource_fst (allowed : List Str) :
    ∀ (srcs : List RefSource) (rows : List Row) (n : Nat),
      (srcs.foldl (runSource allowed) (rows, n)).1 =
        (srcs.foldl (runSource allowed) (rows, 0)).1
  | [], _, _ => rfl
  | src :: rest, rows, n => by
    simp only [List.foldl_cons]
    cases hf : src.fetch with
    | error e =>
      have h1 : runSource allowed (rows, n) src = (rows, n) := by
        simp [runSource, hf]
      have h2 : runSource allowed (rows, 0) src = (rows, 0) := by
        simp [runSource, hf]
      rw [h1, h2]
      exact foldl_runSource_fst allowed rest rows n
    | ok refs =>
      have h1 : runSource allowed (rows, n) src =
          ((enrich_from_reference rows refs allowed src.allowNewIndustry).1,
           n + (enrich_from_reference rows refs allowed src.allowNewIndustry).2) := by
        simp [runSource, hf]
      have h2 : runSource allowed (rows, 0) src =
          ((enrich_from_reference rows refs allowed src.allowNewIndustry).1,
           0 + (enrich_from_reference rows refs allowed src.allowNewIndustry).2) := by
        simp [runSource, hf]
      rw [h1, h2]
      rw [foldl_runSource_fst allowed rest _ (n + _),
        foldl_runSource_fst allowed rest _ (0 + _)]

theorem runSources_cons_fst (allowed : List Str) (src : RefSource)
    (rest : List RefSource) (rows : List Row) :
    (runSources allowed (src :: rest) rows).1 =
      (runSources allowed rest ((runSource allowed (rows, 0) src).1)).1 := by
  unfold runSources
  simp only [List.foldl_cons]
  cases hp : runSource allowed (rows, 0) src with
  | mk r' n' => exact foldl_runSource_fst allowed rest r' n'

/-- C1: the no-overwrite invariant.  For every target row and every
sequence of reference sources, a Sector or Industry cell that is non-empty
before the run (and hence before each source's pass, by instantiating
`rows` at any intermediate state) is never changed: `enrich_from_reference`
fills a field only when it is missing. -/
theorem c1_no_overwrite (allowed : List Str) (srcs : List RefSource)
    (rows : List Row) (i : Nat) (row row' : Row)
    (h1 : rows.get? i = some row)
    (h2 : (runSources allowed srcs rows).1.get? i = some row') :
    (cellMissing row.sector = false → row'.sector = row.sector) ∧
    (cellMissing row.industry = false → row'.industry = row.industry) := by
  induction srcs generalizing rows row with
  | nil =>
    have : rows.get? i = some row' := h2
    rw [h1] at this
    cases this
    exact ⟨fun _ => rfl, fun _ => rfl⟩
  | cons src rest ih =>
    rw [runSources_cons_fst] at h2
    cases hf : src.fetch with
    | error e =>
      have hrows : (runSource allowed (rows, 0) src).1 = rows := by
        simp [runSource, hf]
      rw [hrows] at h2
      exact ih rows row h1 h2
    | ok refs =>
      have hrows : (runSource allowed (rows, 0) src).1 =
          rows.map (fun r => (enrichRow allowed src.allowNewIndustry refs r).1) := by
        simp only [runSource, hf]
        exact enrich_from_reference_fst rows refs allowed src.allowNewIndustry
      rw [hrows] at h2
      have h1' : (rows.map (fun r => (enrichRow allowed src.allowNewIndustry refs r).1)).get? i =
          some ((enrichRow allowed src.allowNewIndustry refs row).1) := by
        rw [List.get?_map, h1]
        rfl
      have hih := ih _ _ h1' h2
      refine ⟨fun hs => ?_, fun hi2 => ?_⟩
      · have hpres := enrichRow_sector_pres allowed src.allowNewIndustry refs row hs
        have hmiss : cellMissing ((enrichRow allowed src.allowNewIndustry refs row).1).sector = false := by
          rw [hpres]; exact hs
        rw [hih.1 hmiss, hpres]
      · have hpres := enrichRow_industry_pres allowed src.allowNewIndustry refs row hi2
        have hmiss : cellMissing ((enrichRow allowed src.allowNewIndustry refs row).1).industry = false := by
          rw [hpres]; exact hi2
        rw [hih.2 hmiss, hpres]

/-- C1 witness: a row with Sector "Finance" and Industry "Banks" passes
through a source offering different values unchanged. -/
theorem c1_witness :
    (cellMissing (some (strL "Finance")) = false →
      (some (strL "Finance") : Option Str) = some (strL "Finance")) ∧
    (cellMissing (some (strL "Banks")) = false →
      (some (strL "Banks") : Option Str) = some (strL "Banks")) := by
  have h := c1_no_overwrite [strL "Energy", strL "Finance"]
    [⟨Except.ok [⟨some (strL "AAA"), some (strL "Energy"), some (strL "Oil")⟩], true⟩]
    [⟨strL "AAA", some (strL "Finance"), some (strL "Banks")⟩] 0
    ⟨strL "AAA", some (strL "Finance"), some (strL "Banks")⟩
    ⟨strL "AAA", some (strL "Finance"), some (strL "Banks")⟩
    (by decide) (by decide)
  exact ⟨fun hm => h.1 hm, fun hm => h.2 hm⟩

theorem sectorOkOf_spec (c : Option Str) (allowed : List Str)
    (h : sectorOkOf c allowed = true) :
    cellMissing c = false ∧
      (allowedNormSet allowed).contains (normLowerO c) = true := by
  cases c with
  | none => simp [sectorOkOf] at h
  | some s =>
    simp only [sectorOkOf, Bool.and_eq_true, Bool.not_eq_true'] at h
    obtain ⟨hne, hcon⟩ := h
    refine ⟨by simpa [cellMissing] using hne, ?_⟩
    have hnorm : normLowerO (some s) = some (lowerS (stripWs s)) := by
      simp only [normLowerO, normO]
      rw [if_neg (by simp [hne])]
      rfl
    rw [hnorm]
    exact hcon

theorem industryStepOf_gate (im ok anI : Bool) (refInd cur : Option Str) :
    (anI = false → (industryStepOf im ok anI refInd cur).1 = cur) ∧
    ((industryStepOf im ok anI refInd cur).1 ≠ cur → anI = true ∧ ok = true) := by
  unfold industryStepOf
  split
  · next hcond =>
    simp only [Bool.and_eq_true] at hcond
    split
    · constructor
      · intro hfalse
        rw [hfalse] at hcond
        simp at hcond
      · intro _
        exact ⟨hcond.2, hcond.1.2⟩
    · exact ⟨fun _ => rfl, fun hne => absurd rfl hne⟩
  · exact ⟨fun _ => rfl, fun hne => absurd rfl hne⟩

theorem enrichRow_industry_gate (allowed : List Str) (anI : Bool)
    (refs : List RefRecord) (row : Row) :
    (anI = false → (enrichRow allowed anI refs row).1.industry = row.industry) ∧
    ((enrichRow allowed anI refs row).1.industry ≠ row.industry →
      anI = true ∧
        sectorOkOf ((enrichRow allowed anI refs row).1).sector allowed = true) := by
  simp only [enrichRow]
  split
  · exact ⟨fun _ => rfl, fun hne => absurd rfl hne⟩
  · split
    · exact ⟨fun _ => rfl, fun hne => absurd rfl hne⟩
    · next refr heq =>
      exact industryStepOf_gate (cellMissing row.industry)
        (sectorOkOf (sectorStepOf (cellMissing row.sector)
          (normalize_sector_to_allowed refr.sector allowed) row.sector).1 allowed)
        anI refr.industry row.industry

/-- C3: for every target row and source, the Industry field is never
filled while the row's Sector (after any sector fill in the same pass) is
empty or not a member, case-insensitively, of the allowed sector set; and
a sector-only source (`allow_new_industry = False`) never changes Industry
for any row. -/
theorem c3_industry_gate (rows : List Row) (refs : List RefRecord)
    (allowed : List Str) (anI : Bool) (i : Nat) (row row' : Row)
    (h1 : rows.get? i = some row)
    (h2 : (enrich_from_reference rows refs allowed anI).1.get? i = some row') :
    (anI = false → row'.industry = row.industry) ∧
    (row'.industry ≠ row.industry →
      anI = true ∧ cellMissing row'.sector = false ∧
        (allowedNormSet allowed).contains (normLowerO row'.sector) = true) := by
  have hfst := enrich_from_reference_fst rows refs allowed anI
  rw [hfst, List.get?_map, h1] at h2
  simp only [Option.map_some'] at h2
  cases h2
  have hg := enrichRow_industry_gate allowed anI refs row
  refine ⟨hg.1, fun hne => ?_⟩
  obtain ⟨hai, hok⟩ := hg.2 hne
  obtain ⟨hmiss, hcon⟩ := sectorOkOf_spec _ allowed hok
  exact ⟨hai, hmiss, hcon⟩

/-- C3 witness: a source filling both fields of an initially empty row
satisfies the gate (the filled sector is non-empty and an allowed member),
and with `allow_new_industry = false` the industry stays untouched. -/
theorem c3_witness :
    (true = true ∧
      cellMissing (some (strL "Energy")) = false ∧
      (allowedNormSet [strL "Energy"]).contains (normLowerO (some (strL "Energy"))) = true) ∧
    (none : Option Str) = none := by
  constructor
  · exact (c3_industry_gate [⟨strL "AAA", none, none⟩]
      [⟨some (strL "AAA"), some (strL "Energy"), some (strL "Oil")⟩]
      [strL "Energy"] true 0 ⟨strL "AAA", none, none⟩
      ⟨strL "AAA", some (strL "Energy"), some (strL "Oil")⟩
      (by decide) (by decide)).2 (by decide)
  · exact (c3_industry_gate [⟨strL "BBB", some (strL "Energy"), none⟩]
      [⟨some (strL "BBB"), some (strL "Energy"), some (strL "Oil")⟩]
      [strL "Energy"] false 0 ⟨strL "BBB", some (strL "Energy"), none⟩
      ⟨strL "BBB", some (strL "Energy"), none⟩
      (by decide) (by decide)).1 rfl

/-- C6: a reference source whose fetch raises contributes zero filled
cells and leaves the row state exactly as it was (its whole `try` block is
skipped), and every subsequent source still executes its full pass: the
run over `xs ++ [failing] ++ ys` equals the run over `xs ++ ys`. -/
theorem c6_source_failure_isolated (allowed : List Str) (xs ys : List RefSource)
    (src : RefSource) (msg : Str) (h : src.fetch = Except.error msg)
    (rows : List Row) (st : List Row × Nat) :
    runSource allowed st src = st ∧
    runSources allowed (xs ++ src :: ys) rows = runSources allowed (xs ++ ys) rows := by
  have hskip : ∀ st2 : List Row × Nat, runSource allowed st2 src = st2 := by
    intro st2
    simp [runSource, h]
  refine ⟨hskip st, ?_⟩
  unfold runSources
  rw [List.foldl_append, List.foldl_append, List.foldl_cons, hskip]

/-- C6 witness: with a concrete failing middle source, its pass is the
identity and the three-source run equals the two-source run. -/
theorem c6_witness :
    runSource [strL "Energy"] ([⟨strL "AAA", none, none⟩], 0)
        ⟨Except.error (strL "boom"), true⟩ = ([⟨strL "AAA", none, none⟩], 0) ∧
    runSources [strL "Energy"]
        ([⟨Except.ok [⟨some (strL "AAA"), some (strL "Energy"), none⟩], true⟩] ++
          ⟨Except.error (strL "boom"), true⟩ ::
            [⟨Except.ok [⟨some (strL "AAA"), none, some (strL "Oil")⟩], true⟩])
        [⟨strL "AAA", none, none⟩] =
      runSources [strL "Energy"]
        ([⟨Except.ok [⟨some (strL "AAA"), some (strL "Energy"), none⟩], true⟩] ++
          [⟨Except.ok [⟨some (strL "AAA"), none, some (strL "Oil")⟩], true⟩])
        [⟨strL "AAA", none, none⟩] :=
  c6_source_failure_isolated [strL "Energy"]
    [⟨Except.ok [⟨some (strL "AAA"), some (strL "Energy"), none⟩], true⟩]
    [⟨Except.ok [⟨some (strL "AAA"), none, some (strL "Oil")⟩], true⟩]
    ⟨Except.error (strL "boom"), true⟩ (strL "boom") rfl
    [⟨strL "AAA", none, none⟩] ([⟨strL "AAA", none, none⟩], 0)

/-- The 17-row Phase 3 input: rows 1 and 14 (0-based) share the company
key "acme"; every row is unlabeled (class_rank 2). -/
def c2Input : List CRow :=
  [⟨strL "S00", strL "zza common stock"⟩,
   ⟨strL "S01", strL "acme common stock"⟩,
   ⟨strL "S02", strL "zzc common stock"⟩,
   ⟨strL "S03", strL "zzd common stock"⟩,
   ⟨strL "S04", strL "zze common stock"⟩,
   ⟨strL "S05", strL "zzf common stock"⟩,
   ⟨strL "S06", strL "zzg common stock"⟩,
   ⟨strL "S07", strL "zzh common stock"⟩,
   ⟨strL "S08", strL "zzi common stock"⟩,
   ⟨strL "S09", strL "zzj common stock"⟩,
   ⟨strL "S10", strL "zzk common stock"⟩,
   ⟨strL "S11", strL "zzl common stock"⟩,
   ⟨strL "S12", strL "zzm common stock"⟩,
   ⟨strL "S13", strL "zzn common stock"⟩,
   ⟨strL "S14", strL "acme common stock"⟩,
   ⟨strL "S15", strL "zzp common stock"⟩,
   ⟨strL "S16", strL "zzq common stock"⟩]

/-- One rank-sorted order of `c2Input` that an unstable sort may produce:
the index permutation `[0, 14, 13, 12, 11, 10, 9, 15, 8, 6, 5, 4, 3, 2,
1, 7, 16]` that a single median-of-three introsort partition pass over 17
equal keys yields; original row 14 now precedes original row 1. -/
def c2Sorted : List CRow :=
  [⟨strL "S00", strL "zza common stock"⟩,
   ⟨strL "S14", strL "acme common stock"⟩,
   ⟨strL "S13", strL "zzn common stock"⟩,
   ⟨strL "S12", strL "zzm common stock"⟩,
   ⟨strL "S11", strL "zzl common stock"⟩,
   ⟨strL "S10", strL "zzk common stock"⟩,
   ⟨strL "S09", strL "zzj common stock"⟩,
   ⟨strL "S15", strL "zzp common stock"⟩,
   ⟨strL "S08", strL "zzi common stock"⟩,
   ⟨strL "S06", strL "zzg common stock"⟩,
   ⟨strL "S05", strL "zzf common stock"⟩,
   ⟨strL "S04", strL "zze common stock"⟩,
   ⟨strL "S03", strL "zzd common stock"⟩,
   ⟨strL "S02", strL "zzc common stock"⟩,
   ⟨strL "S01", strL "acme common stock"⟩,
   ⟨strL "S07", strL "zzh common stock"⟩,
   ⟨strL "S16", strL "zzq common stock"⟩]

/-- C2 (code_bug support): `sort_values("class_rank")` with pandas'
default `kind='quicksort'` only guarantees a rank-nondecreasing
permutation — it is documented as not stable.  `c2Sorted` is such a
permutation of the 17-row input, and the Phase 3 keep-first dedup run on
it keeps the duplicate-key row that was 14th in input order, not the
earliest (row 1) as the claim requires; the claim therefore does not
follow from the code as written, while it would under
`kind='stable'`/`'mergesort'`. -/
theorem c2_sort_contract_violation :
    rankSortedPermOf c2Input c2Sorted ∧
    (⟨strL "S14", strL "acme common stock"⟩ : CRow) ∈ phase3KeepFirst c2Sorted ∧
    ¬ (⟨strL "S01", strL "acme common stock"⟩ : CRow) ∈ phase3KeepFirst c2Sorted ∧
    (⟨strL "S01", strL "acme common stock"⟩ : CRow) ∈ phase3KeepFirst c2Input := by
  refine ⟨⟨by decide, by decide⟩, by decide, by decide, by decide⟩

theorem isPreL_refl_append : ∀ (n b : Str), isPreL n (n ++ b) = true
  | [], _ => rfl
  | c :: cs, b => by
    simp only [List.cons_append, isPreL]
    have := isPreL_refl_append cs b
    simp only [List.append_eq] at this ⊢
    rw [this]
    simp

theorem containsSub_of_decomp : ∀ (a n b : Str), containsSub n (a ++ (n ++ b)) = true
  | [], n, b => by
    cases hn : n ++ b with
    | nil =>
      have : n = [] := by
        cases n with
        | nil => rfl
        | cons x xs => simp at hn
      simp [containsSub, this]
    | cons c cs =>
      simp only [List.nil_append, hn]
      simp only [containsSub, ← hn, isPreL_refl_append]
      simp
  | c :: a, n, b => by
    simp only [List.cons_append, containsSub, Bool.or_eq_true]
    exact Or.inr (containsSub_of_decomp a n b)

theorem mem_reprItems_decomp :
    ∀ (l : List Str) (c : Str), c ∈ l →
      ∃ x y, reprItems l = x ++ (quotedPy c ++ y)
  | [], c, h => absurd h (List.not_mem_nil c)
  | [t], c, h => by
    have : c = t := by simpa using h
    exact ⟨[], [], by simp [reprItems, this]⟩
  | t :: u :: rest, c, h => by
    rcases List.mem_cons.mp h with heq | htail
    · exact ⟨[], strL ", " ++ reprItems (u :: rest), by simp [reprItems, heq]⟩
    · obtain ⟨x, y, hx⟩ := mem_reprItems_decomp (u :: rest) c htail
      refine ⟨quotedPy t ++ strL ", " ++ x, y, ?_⟩
      simp only [reprItems, hx, List.append_assoc]

theorem containsSub_quoted_repr {l : List Str} {c : Str} (h : c ∈ l) :
    ∀ pre post : Str,
      containsSub (quotedPy c) (pre ++ (pyReprStrList l ++ post)) = true := by
  intro pre post
  obtain ⟨x, y, hx⟩ := mem_reprItems_decomp l c h
  have : pre ++ (pyReprStrList l ++ post) =
      (pre ++ '[' :: x) ++ (quotedPy c ++ (y ++ ']' :: post)) := by
    simp only [pyReprStrList, hx]
    simp [List.append_assoc]
  rw [this]
  exact containsSub_of_decomp _ _ _

theorem findIdx?_isSome_of_mem {l : List Str} {x : Str} (h : x ∈ l) :
    ∃ i, l.findIdx? (fun c => c == x) = some i := by
  cases hf : l.findIdx? (fun c => c == x) with
  | some i => exact ⟨i, rfl⟩
  | none =>
    rw [List.findIdx?_eq_none_iff] at hf
    have := hf x h
    simp at this
  
theorem mem_insortStr (x : Str) : ∀ (l : List Str) (c : Str), c ∈ l ∨ c = x →
    c ∈ insortStr x l
  | [], c, h => by
    simp only [insortStr]
    rcases h with h | h
    · exact absurd h (List.not_mem_nil c)
    · simp [h]
  | y :: ys, c, h => by
    simp only [insortStr]
    split
    · rcases h with h | h
      · simp [h]
      · simp [h]
    · rcases h with h | h
      · rcases List.mem_cons.mp h with h2 | h2
        · simp [h2]
        · simp only [List.mem_cons]
          exact Or.inr (mem_insortStr x ys c (Or.inl h2))
      · simp only [List.mem_cons]
        exact Or.inr (mem_insortStr x ys c (Or.inr h))

theorem mem_pySortedStr {c : Str} : ∀ {l : List Str}, c ∈ l → c ∈ pySortedStr l
  | [], h => absurd h (List.not_mem_nil c)
  | y :: ys, h => by
    simp only [pySortedStr, List.foldr_cons]
    rcases List.mem_cons.mp h with h2 | h2
    · exact mem_insortStr y (ys.foldr insortStr []) c (Or.inr h2)
    · exact mem_insortStr y (ys.foldr insortStr []) c
        (Or.inl (mem_pySortedStr h2))

/-- C5 counterexample: on a frame whose columns are Symbol, Sector and
Foo (so Industry is the missing required column and "Foo" is among the
available ones), enrich_sectors aborts with
"Missing required columns: ['Industry']" — a message that does not name
the available columns, refuting "names both the missing fields and the
available ones". -/
theorem c5_counterexample :
    enrichMain [strL "Symbol", strL "Sector", strL "Foo"] [] [] =
      Except.error (mkEnrichMsg [strL "Industry"]) ∧
    containsSub (strL "Foo") (mkEnrichMsg [strL "Industry"]) = false := by
  exact ⟨by rfl, by decide⟩

theorem cleanTickersRun_missing_volume
    (sortAlg : List (List (Option Str)) → List (List (Option Str)))
    (t : Table) (ni : Nat)
    (hni : t.cols.findIdx? (fun c => c == strL "Name") = some ni)
    (hvol : ((t.cols ++ [strL "name_norm"]) ++
        [strL "company_key", strL "class_rank"]).contains (strL "Volume") = false) :
    cleanTickersRun sortAlg t = Except.error (mkCleanMsg
      (requiredCleanCols.filter (fun c =>
        !((t.cols ++ [strL "name_norm"]) ++
          [strL "company_key", strL "class_rank"]).contains c))
      ((t.cols ++ [strL "name_norm"]) ++ [strL "company_key", strL "class_rank"])) := by
  have hvmem : strL "Volume" ∈ requiredCleanCols.filter (fun c =>
      !((t.cols ++ [strL "name_norm"]) ++
        [strL "company_key", strL "class_rank"]).contains c) := by
    refine List.mem_filter.mpr ⟨by simp [requiredCleanCols], ?_⟩
    rw [hvol]
    rfl
  simp only [cleanTickersRun, hni]
  rw [if_pos]
  cases hf : requiredCleanCols.filter (fun c =>
      !((t.cols ++ [strL "name_norm"]) ++
        [strL "company_key", strL "class_rank"]).contains c) with
  | nil =>
    rw [hf] at hvmem
    exact absurd hvmem (List.not_mem_nil _)
  | cons a l => rfl

/-- C5 (amended): a missing required column is a fatal `SystemExit` in
both scripts, but not as the claim states it.  In clean_tickers the check
(on `Last Sale`/`Volume`) runs only after classification and
deduplication: its message lists the missing and the available columns,
and the available list already contains the helper columns `name_norm`,
`company_key` and `class_rank` added by those phases.  In enrich_sectors
the check aborts before any enrichment — the outcome is the same error
for every row set and source list — but its message names only the
missing columns, not the available ones (see the counterexample). -/
theorem c5_amended :
    (∀ (sortAlg : List (List (Option Str)) → List (List (Option Str))) (t : Table),
      strL "Name" ∈ t.cols → ¬ strL "Volume" ∈ t.cols →
      ∃ m, cleanTickersRun sortAlg t = Except.error m ∧
        containsSub (quotedPy (strL "Volume")) m = true ∧
        containsSub (quotedPy (strL "class_rank")) m = true ∧
        containsSub (strL "Available columns") m = true) ∧
    (∀ (cols : List Str) (rows : List Row) (sources : List RefSource),
      ¬ strL "Industry" ∈ cols →
      enrichMain cols rows sources =
        Except.error (mkEnrichMsg (enrichMissingOf cols)) ∧
      containsSub (quotedPy (strL "Industry"))
        (mkEnrichMsg (enrichMissingOf cols)) = true) := by
  constructor
  · intro sortAlg t h1 h2
    obtain ⟨ni, hni⟩ := findIdx?_isSome_of_mem h1
    have hvolmem : ¬ strL "Volume" ∈ ((t.cols ++ [strL "name_norm"]) ++
        [strL "company_key", strL "class_rank"]) := by
      intro hmem
      rcases List.mem_append.mp hmem with h | h
      · rcases List.mem_append.mp h with h | h
        · exact h2 h
        · rw [List.mem_singleton] at h
          exact absurd h (by decide)
      · simp only [List.mem_cons, List.mem_singleton] at h
        rcases h with h | h
        · exact absurd h (by decide)
        · exact absurd h (by decide)
    have hvol : ((t.cols ++ [strL "name_norm"]) ++
        [strL "company_key", strL "class_rank"]).contains (strL "Volume") = false := by
      cases hc : ((t.cols ++ [strL "name_norm"]) ++
          [strL "company_key", strL "class_rank"]).contains (strL "Volume") with
      | false => rfl
      | true => exact absurd (List.mem_of_elem_eq_true hc) hvolmem
    have hvmem : strL "Volume" ∈ requiredCleanCols.filter (fun c =>
        !((t.cols ++ [strL "name_norm"]) ++
          [strL "company_key", strL "class_rank"]).contains c) := by
      refine List.mem_filter.mpr ⟨by decide, ?_⟩
      rw [hvol]
      rfl
    have hrun := cleanTickersRun_missing_volume sortAlg t ni hni hvol
    refine ⟨_, hrun, ?_, ?_, ?_⟩
    · have hc := containsSub_quoted_repr hvmem (strL "Missing required columns: ")
        (strL ". Available columns: " ++ pyReprStrList
          ((t.cols ++ [strL "name_norm"]) ++ [strL "company_key", strL "class_rank"]))
      simpa [mkCleanMsg, List.append_assoc] using hc
    · have hcr : strL "class_rank" ∈ ((t.cols ++ [strL "name_norm"]) ++
          [strL "company_key", strL "class_rank"]) := by simp
      have hc := containsSub_quoted_repr hcr
        (strL "Missing required columns: " ++ pyReprStrList
          (requiredCleanCols.filter (fun c =>
            !((t.cols ++ [strL "name_norm"]) ++
              [strL "company_key", strL "class_rank"]).contains c)) ++
          strL ". Available columns: ") []
      simpa [mkCleanMsg, List.append_assoc] using hc
    · have hx := containsSub_of_decomp
        (strL "Missing required columns: " ++ pyReprStrList
          (requiredCleanCols.filter (fun c =>
            !((t.cols ++ [strL "name_norm"]) ++
              [strL "company_key", strL "class_rank"]).contains c)) ++ strL ". ")
        (strL "Available columns")
        (strL ": " ++ pyReprStrList
          ((t.cols ++ [strL "name_norm"]) ++ [strL "company_key", strL "class_rank"]))
      have hsp : strL ". Available columns: " =
          strL ". " ++ (strL "Available columns" ++ strL ": ") := by decide
      have hmsg : mkCleanMsg
          (requiredCleanCols.filter (fun c =>
            !((t.cols ++ [strL "name_norm"]) ++
              [strL "company_key", strL "class_rank"]).contains c))
          ((t.cols ++ [strL "name_norm"]) ++ [strL "company_key", strL "class_rank"]) =
          (strL "Missing required columns: " ++ pyReprStrList
            (requiredCleanCols.filter (fun c =>
              !((t.cols ++ [strL "name_norm"]) ++
                [strL "company_key", strL "class_rank"]).contains c)) ++ strL ". ") ++
          (strL "Available columns" ++ (strL ": " ++ pyReprStrList
            ((t.cols ++ [strL "name_norm"]) ++
              [strL "company_key", strL "class_rank"]))) := by
        rw [mkCleanMsg, hsp]
        simp [List.append_assoc]
      rw [hmsg]
      exact hx
  · intro cols rows sources hind
    have hcf : cols.contains (strL "Industry") = false := by
      cases hc : cols.contains (strL "Industry") with
      | false => rfl
      | true => exact absurd (List.mem_of_elem_eq_true hc) hind
    have hmem : strL "Industry" ∈ enrichMissingOf cols := by
      unfold enrichMissingOf
      apply mem_pySortedStr
      refine List.mem_filter.mpr ⟨by decide, ?_⟩
      rw [hcf]
      rfl
    constructor
    · simp only [enrichMain]
      rw [if_pos]
      cases hf : enrichMissingOf cols with
      | nil =>
        rw [hf] at hmem
        exact absurd hmem (List.not_mem_nil _)
      | cons a l => rfl
    · have hc := containsSub_quoted_repr hmem (strL "Missing required columns: ") []
      simpa [mkEnrichMsg] using hc

/-- C5 amended witness: both parts instantiated at concrete frames — a
clean_tickers table with only a Name column, and an enrich frame with
columns Symbol, Sector, Foo. -/
theorem c5_amended_witness :
    (∃ m, cleanTickersRun id ⟨[strL "Name"], []⟩ = Except.error m ∧
      containsSub (quotedPy (strL "Volume")) m = true ∧
      containsSub (quotedPy (strL "class_rank")) m = true ∧
      containsSub (strL "Available columns") m = true) ∧
    (enrichMain [strL "Symbol", strL "Sector", strL "Foo"] [] [] =
      Except.error (mkEnrichMsg
        (enrichMissingOf [strL "Symbol", strL "Sector", strL "Foo"])) ∧
      containsSub (quotedPy (strL "Industry"))
        (mkEnrichMsg
          (enrichMissingOf [strL "Symbol", strL "Sector", strL "Foo"])) = true) :=
  ⟨c5_amended.1 id ⟨[strL "Name"], []⟩ (by decide) (by decide),
   c5_amended.2 [strL "Symbol", strL "Sector", strL "Foo"] [] [] (by decide)⟩
